import Mathlib

/-!
# Verification of the DemoBuilder provisioning pipeline

Shallow embedding of the DemoBuilder repository (TypeScript) into Lean 4:

* `server/services/pdf.ts` — `sanitizeText` (per-character regex pipeline).
* `server/services/websiteCrawler.ts` — `deriveTitleFromDomain`,
  `identifyBusinessType`.
* `server/services/ainagerMysql.ts` — `extractDomainFromEmail`,
  `buildAinagerNameFromEmail`, `createAinagerAndDocumentMySql`.
* `server/storage.ts` — `MemStorage` OTP and website-analysis maps.
* `server/routes.ts` — the `request-otp` and `ainager/create` route handlers.

JavaScript strings are modelled as Lean `String`/`List Char` (code points);
`Date.now()` is passed explicitly as a `Nat` parameter; the MySQL database is
modelled as in-memory lists of rows with explicit transaction semantics.
Case mapping (`toLowerCase`/`toUpperCase`) is modelled on the ASCII range,
which is where every call site in the repository uses it.
-/

namespace DemoBuilder

/-! ## Character helpers (JS semantics) -/

/-- ASCII fragment of JS `String.prototype.toLowerCase`, per character
(65–90 are `A`–`Z`). -/
def jsToLowerChar (c : Char) : Char :=
  if 65 ≤ c.toNat ∧ c.toNat ≤ 90 then Char.ofNat (c.toNat + 32) else c

/-- ASCII fragment of JS `String.prototype.toUpperCase`, per character
(97–122 are `a`–`z`). -/
def jsToUpperChar (c : Char) : Char :=
  if 97 ≤ c.toNat ∧ c.toNat ≤ 122 then Char.ofNat (c.toNat - 32) else c

/-- The JS regex `\s` character class (ECMAScript WhiteSpace ∪ LineTerminator). -/
def jsWsChar (c : Char) : Bool :=
  c.toNat = 9 ∨ c.toNat = 10 ∨ c.toNat = 11 ∨ c.toNat = 12 ∨ c.toNat = 13 ∨
  c.toNat = 32 ∨ c.toNat = 0xA0 ∨ c.toNat = 0x1680 ∨
  (0x2000 ≤ c.toNat ∧ c.toNat ≤ 0x200A) ∨
  c.toNat = 0x2028 ∨ c.toNat = 0x2029 ∨ c.toNat = 0x202F ∨
  c.toNat = 0x205F ∨ c.toNat = 0x3000 ∨ c.toNat = 0xFEFF

/-- JS `String.prototype.toLowerCase` (ASCII fragment). -/
def jsToLowerStr (s : String) : String := String.mk (s.data.map jsToLowerChar)

/-! ## Generic list helpers for JS string methods -/

/-- JS `str.split(sep)` for a one-character separator, on code points. -/
def splitOnCh (sep : Char) : List Char → List (List Char)
  | [] => [[]]
  | c :: rest =>
    if c = sep then [] :: splitOnCh sep rest
    else (splitOnCh sep rest).modifyHead (c :: ·)

/-- Does `needle` occur at the start of `hay`? (JS `startsWith`.) -/
def leadMatch : List Char → List Char → Bool
  | [], _ => true
  | _ :: _, [] => false
  | a :: as, b :: bs => a = b && leadMatch as bs

/-- Does `needle` occur anywhere in `hay`? (JS `String.prototype.includes`.) -/
def hasSub (hay needle : List Char) : Bool :=
  match hay with
  | [] => needle.isEmpty
  | _ :: t => leadMatch needle hay || hasSub t needle

/-- JS `s.includes(sub)`. -/
def jsIncludes (s sub : String) : Bool := hasSub s.data sub.data

/-- JS `s.replace(/\s+/g, ' ')`: each maximal run of whitespace becomes one
space.  The space is emitted at the end of the run. -/
def collapseWsL : List Char → List Char
  | [] => []
  | [c] => if jsWsChar c then [' '] else [c]
  | c :: d :: rest =>
    if jsWsChar c then
      if jsWsChar d then collapseWsL (d :: rest)
      else ' ' :: collapseWsL (d :: rest)
    else c :: collapseWsL (d :: rest)

/-- JS `s.replace(/[-_]+/g, ' ')`: each maximal run of hyphens/underscores
becomes one space. -/
def collapseSepsL : List Char → List Char
  | [] => []
  | [c] => if c = '-' ∨ c = '_' then [' '] else [c]
  | c :: d :: rest =>
    if c = '-' ∨ c = '_' then
      if d = '-' ∨ d = '_' then collapseSepsL (d :: rest)
      else ' ' :: collapseSepsL (d :: rest)
    else c :: collapseSepsL (d :: rest)

/-- Drop JS whitespace from the front. -/
def trimFrontL (xs : List Char) : List Char := xs.dropWhile (jsWsChar ·)

/-- Drop JS whitespace from the back. -/
def trimBackL (xs : List Char) : List Char :=
  (xs.reverse.dropWhile (jsWsChar ·)).reverse

/-- JS `String.prototype.trim` on code points. -/
def trimL (xs : List Char) : List Char := trimBackL (trimFrontL xs)

/-! ## `sanitizeText` (server/services/pdf.ts) -/

def emojiRange (c : Char) : Bool := 0x1F300 ≤ c.toNat ∧ c.toNat ≤ 0x1F9FF
def miscSymbolsRange (c : Char) : Bool := 0x2600 ≤ c.toNat ∧ c.toNat ≤ 0x26FF
def dingbatsRange (c : Char) : Bool := 0x2700 ≤ c.toNat ∧ c.toNat ≤ 0x27BF
def mahjongRange (c : Char) : Bool := 0x1F000 ≤ c.toNat ∧ c.toNat ≤ 0x1F02F
def cardsRange (c : Char) : Bool := 0x1F0A0 ≤ c.toNat ∧ c.toNat ≤ 0x1F0FF
def addSymbolsRange (c : Char) : Bool := 0x1F100 ≤ c.toNat ∧ c.toNat ≤ 0x1F64F
def moreSymbolsRange (c : Char) : Bool := 0x1F650 ≤ c.toNat ∧ c.toNat ≤ 0x1F9FF

/-- General Punctuation block, replaced by a plain space. -/
def genPunctRange (c : Char) : Bool := 0x2000 ≤ c.toNat ∧ c.toNat ≤ 0x206F

/-- Line separator (U+2028) or paragraph separator (U+2029). -/
def lineSepRange (c : Char) : Bool := c.toNat = 0x2028 ∨ c.toNat = 0x2029

/-- The per-character pipeline of `sanitizeText`, before whitespace collapsing:
the seven removal regexes, then the general-punctuation → space replacement,
then the (line/paragraph separator) → newline replacement, applied in the
source order. -/
def sanitizeChars (l : List Char) : List Char :=
  ((((((((l.filter (fun c => !emojiRange c)).filter
    (fun c => !miscSymbolsRange c)).filter
    (fun c => !dingbatsRange c)).filter
    (fun c => !mahjongRange c)).filter
    (fun c => !cardsRange c)).filter
    (fun c => !addSymbolsRange c)).filter
    (fun c => !moreSymbolsRange c)).map
    (fun c => if genPunctRange c then ' ' else c)).map
    (fun c => if lineSepRange c then '\n' else c)

/-- `sanitizeText` from `server/services/pdf.ts`: the character pipeline,
then `replace(/\s+/g, ' ')`, then `trim()`. -/
def sanitizeText (s : String) : String :=
  String.mk (trimL (collapseWsL (sanitizeChars s.data)))

/-! ## Normal form of sanitized text -/

/-- A character that survives every removal filter and both replacement maps
of `sanitizeChars` unchanged. -/
def goodChar (c : Char) : Prop :=
  emojiRange c = false ∧ miscSymbolsRange c = false ∧ dingbatsRange c = false ∧
  mahjongRange c = false ∧ cardsRange c = false ∧ addSymbolsRange c = false ∧
  moreSymbolsRange c = false ∧ genPunctRange c = false

instance (c : Char) : Decidable (goodChar c) := by
  unfold goodChar
  infer_instance

/-- No two adjacent whitespace characters. -/
def noTwoWs : List Char → Prop
  | c :: d :: rest => ¬(jsWsChar c = true ∧ jsWsChar d = true) ∧ noTwoWs (d :: rest)
  | _ => True

theorem noTwoWs_nil : noTwoWs [] := trivial

theorem noTwoWs_single (c : Char) : noTwoWs [c] := trivial

theorem noTwoWs_cons_of {c : Char} {z : List Char}
    (h : ¬ jsWsChar c = true) (hz : noTwoWs z) : noTwoWs (c :: z) := by
  cases z with
  | nil => trivial
  | cons d t => exact ⟨fun hp => h hp.1, hz⟩

theorem noTwoWs_tail {c : Char} {z : List Char} (h : noTwoWs (c :: z)) : noTwoWs z := by
  cases z with
  | nil => trivial
  | cons d t => exact h.2

theorem noTwoWs_append_left {l₁ l₂ : List Char} (h : noTwoWs (l₁ ++ l₂)) : noTwoWs l₁ := by
  induction l₁ with
  | nil => trivial
  | cons a t ih =>
    cases t with
    | nil => trivial
    | cons b t' =>
      exact ⟨h.1, ih h.2⟩

theorem noTwoWs_dropWhile {p : Char → Bool} {l : List Char} (h : noTwoWs l) :
    noTwoWs (l.dropWhile p) := by
  induction l with
  | nil => trivial
  | cons c t ih =>
    rw [List.dropWhile_cons]
    by_cases hp : p c = true
    · rw [if_pos hp]
      exact ih (noTwoWs_tail h)
    · rw [if_neg hp]
      exact h

theorem collapseWsL_single_ws {c : Char} (h : jsWsChar c = true) :
    collapseWsL [c] = [' '] := by
  unfold collapseWsL; rw [if_pos h]

theorem collapseWsL_single_not {c : Char} (h : ¬ jsWsChar c = true) :
    collapseWsL [c] = [c] := by
  unfold collapseWsL; rw [if_neg h]

theorem collapseWsL_cons₂_ws_ws {c d : Char} {rest : List Char}
    (hc : jsWsChar c = true) (hd : jsWsChar d = true) :
    collapseWsL (c :: d :: rest) = collapseWsL (d :: rest) := by
  conv_lhs => unfold collapseWsL
  rw [if_pos hc, if_pos hd]

theorem collapseWsL_cons₂_ws_not {c d : Char} {rest : List Char}
    (hc : jsWsChar c = true) (hd : ¬ jsWsChar d = true) :
    collapseWsL (c :: d :: rest) = ' ' :: collapseWsL (d :: rest) := by
  conv_lhs => unfold collapseWsL
  rw [if_pos hc, if_neg hd]

theorem collapseWsL_cons₂_not {c d : Char} {rest : List Char}
    (hc : ¬ jsWsChar c = true) :
    collapseWsL (c :: d :: rest) = c :: collapseWsL (d :: rest) := by
  conv_lhs => unfold collapseWsL
  rw [if_neg hc]

theorem collapseWsL_cons_not_ws (c : Char) (rest : List Char) (h : ¬ jsWsChar c = true) :
    collapseWsL (c :: rest) = c :: collapseWsL rest := by
  cases rest with
  | nil => rw [collapseWsL_single_not h]; rfl
  | cons d t => exact collapseWsL_cons₂_not h

theorem mem_collapseWsL {c : Char} {l : List Char} (h : c ∈ collapseWsL l) :
    c = ' ' ∨ (c ∈ l ∧ ¬ jsWsChar c = true) := by
  induction l using collapseWsL.induct with
  | case1 => simp [collapseWsL] at h
  | case2 c₀ hws =>
    rw [collapseWsL_single_ws hws, List.mem_singleton] at h
    exact Or.inl h
  | case3 c₀ hws =>
    rw [collapseWsL_single_not hws, List.mem_singleton] at h
    subst h
    exact Or.inr ⟨List.mem_singleton_self c, hws⟩
  | case4 c₀ d rest hc hd ih =>
    rw [collapseWsL_cons₂_ws_ws hc hd] at h
    rcases ih h with h' | ⟨hm, hw⟩
    · exact Or.inl h'
    · exact Or.inr ⟨List.mem_cons_of_mem _ hm, hw⟩
  | case5 c₀ d rest hc hd ih =>
    rw [collapseWsL_cons₂_ws_not hc hd, List.mem_cons] at h
    rcases h with h' | h'
    · exact Or.inl h'
    · rcases ih h' with h'' | ⟨hm, hw⟩
      · exact Or.inl h''
      · exact Or.inr ⟨List.mem_cons_of_mem _ hm, hw⟩
  | case6 c₀ d rest hc ih =>
    rw [collapseWsL_cons₂_not hc, List.mem_cons] at h
    rcases h with h' | h'
    · subst h'
      exact Or.inr ⟨List.mem_cons_self _ _, hc⟩
    · rcases ih h' with h'' | ⟨hm, hw⟩
      · exact Or.inl h''
      · exact Or.inr ⟨List.mem_cons_of_mem _ hm, hw⟩

theorem wsOnly_collapseWsL {c : Char} {l : List Char} (h : c ∈ collapseWsL l)
    (hw : jsWsChar c = true) : c = ' ' := by
  rcases mem_collapseWsL h with h' | ⟨_, hnw⟩
  · exact h'
  · exact absurd hw hnw

theorem noTwoWs_collapseWsL (l : List Char) : noTwoWs (collapseWsL l) := by
  induction l using collapseWsL.induct with
  | case1 => exact noTwoWs_nil
  | case2 c hws => rw [collapseWsL_single_ws hws]; exact noTwoWs_single _
  | case3 c hws => rw [collapseWsL_single_not hws]; exact noTwoWs_single _
  | case4 c d rest hc hd ih => rw [collapseWsL_cons₂_ws_ws hc hd]; exact ih
  | case5 c d rest hc hd ih =>
    rw [collapseWsL_cons₂_ws_not hc hd]
    rw [collapseWsL_cons_not_ws d rest hd] at ih ⊢
    exact ⟨fun hp => hd hp.2, ih⟩
  | case6 c d rest hc ih =>
    rw [collapseWsL_cons₂_not hc]
    exact noTwoWs_cons_of hc ih

theorem collapseWsL_eq_self {l : List Char}
    (hws : ∀ c ∈ l, jsWsChar c = true → c = ' ')
    (hadj : noTwoWs l) : collapseWsL l = l := by
  induction l using collapseWsL.induct with
  | case1 => rfl
  | case2 c hc =>
    rw [collapseWsL_single_ws hc, hws c (List.mem_singleton_self c) hc]
  | case3 c hc => exact collapseWsL_single_not hc
  | case4 c d rest hc hd ih =>
    exact absurd ⟨hc, hd⟩ hadj.1
  | case5 c d rest hc hd ih =>
    rw [collapseWsL_cons₂_ws_not hc hd,
      ih (fun x hx hwx => hws x (List.mem_cons_of_mem _ hx) hwx) (noTwoWs_tail hadj),
      hws c (List.mem_cons_self _ _) hc]
  | case6 c d rest hc ih =>
    rw [collapseWsL_cons₂_not hc,
      ih (fun x hx hwx => hws x (List.mem_cons_of_mem _ hx) hwx) (noTwoWs_tail hadj)]

theorem head?_dropWhile_not {p : Char → Bool} {l : List Char} {c : Char}
    (h : (l.dropWhile p).head? = some c) : ¬ p c = true := by
  induction l with
  | nil => simp at h
  | cons a t ih =>
    rw [List.dropWhile_cons] at h
    by_cases hp : p a = true
    · rw [if_pos hp] at h
      exact ih h
    · rw [if_neg hp, List.head?_cons, Option.some_inj] at h
      subst h
      exact hp

theorem mem_trimL {c : Char} {l : List Char} (h : c ∈ trimL l) : c ∈ l := by
  unfold trimL trimBackL trimFrontL at h
  rw [List.mem_reverse] at h
  have h₁ := (List.dropWhile_sublist _).mem h
  rw [List.mem_reverse] at h₁
  exact (List.dropWhile_sublist _).mem h₁

theorem trimBackL_prefix (l : List Char) : ∃ t, l = trimBackL l ++ t := by
  refine ⟨(l.reverse.takeWhile (jsWsChar ·)).reverse, ?_⟩
  unfold trimBackL
  rw [← List.reverse_append, List.takeWhile_append_dropWhile, List.reverse_reverse]

theorem noTwoWs_trimL {l : List Char} (h : noTwoWs l) : noTwoWs (trimL l) := by
  unfold trimL trimBackL
  have h₁ : noTwoWs (trimFrontL l) := noTwoWs_dropWhile h
  rcases trimBackL_prefix (trimFrontL l) with ⟨t, ht⟩
  rw [ht] at h₁
  exact noTwoWs_append_left h₁

theorem trimFrontL_eq_self {l : List Char}
    (h : ∀ c, l.head? = some c → ¬ jsWsChar c = true) : trimFrontL l = l := by
  cases l with
  | nil => rfl
  | cons a t =>
    unfold trimFrontL
    rw [List.dropWhile_cons, if_neg (h a rfl)]

theorem trimBackL_eq_self {l : List Char}
    (h : ∀ c, l.getLast? = some c → ¬ jsWsChar c = true) : trimBackL l = l := by
  unfold trimBackL
  have h' : ∀ c, l.reverse.head? = some c → ¬ jsWsChar c = true := by
    intro c hc
    rw [List.head?_reverse] at hc
    exact h c hc
  cases hr : l.reverse with
  | nil =>
    have hl : l = [] := by simpa using congrArg List.reverse hr
    simp [hl]
  | cons a t =>
    rw [List.dropWhile_cons, if_neg (h' a (by rw [hr]; rfl)), ← hr,
      List.reverse_reverse]

theorem head?_append_left {l₁ l₂ : List Char} {c : Char} (h : l₁.head? = some c) :
    (l₁ ++ l₂).head? = some c := by
  cases l₁ with
  | nil => simp at h
  | cons a t => simpa using h

theorem map_eq_self_of {f : Char → Char} {l : List Char} (h : ∀ a ∈ l, f a = a) :
    l.map f = l := by
  induction l with
  | nil => rfl
  | cons a t ih =>
    rw [List.map_cons, h a (List.mem_cons_self _ _),
      ih (fun x hx => h x (List.mem_cons_of_mem _ hx))]

theorem lineSep_imp_genPunct {c : Char} (h : lineSepRange c = true) :
    genPunctRange c = true := by
  simp only [lineSepRange, decide_eq_true_eq] at h
  simp only [genPunctRange, decide_eq_true_eq]
  omega

theorem mem_sanitizeChars_good {c : Char} {l : List Char} (h : c ∈ sanitizeChars l) :
    goodChar c := by
  unfold sanitizeChars at h
  rcases List.mem_map.1 h with ⟨b, hb, rfl⟩
  rcases List.mem_map.1 hb with ⟨a, ha, rfl⟩
  rw [List.mem_filter] at ha; obtain ⟨ha, h7⟩ := ha
  rw [List.mem_filter] at ha; obtain ⟨ha, h6⟩ := ha
  rw [List.mem_filter] at ha; obtain ⟨ha, h5⟩ := ha
  rw [List.mem_filter] at ha; obtain ⟨ha, h4⟩ := ha
  rw [List.mem_filter] at ha; obtain ⟨ha, h3⟩ := ha
  rw [List.mem_filter] at ha; obtain ⟨ha, h2⟩ := ha
  rw [List.mem_filter] at ha; obtain ⟨ha, h1⟩ := ha
  rw [Bool.not_eq_true'] at h1 h2 h3 h4 h5 h6 h7
  by_cases hgp : genPunctRange a = true
  · show goodChar (if lineSepRange (if genPunctRange a = true then ' ' else a) = true
      then '\n' else (if genPunctRange a = true then ' ' else a))
    rw [if_pos hgp]
    decide
  · show goodChar (if lineSepRange (if genPunctRange a = true then ' ' else a) = true
      then '\n' else (if genPunctRange a = true then ' ' else a))
    rw [if_neg hgp]
    have hls : ¬ lineSepRange a = true := fun hl => hgp (lineSep_imp_genPunct hl)
    rw [if_neg hls]
    exact ⟨h1, h2, h3, h4, h5, h6, h7, Bool.eq_false_iff.mpr hgp⟩

theorem sanitizeChars_eq_self {l : List Char} (h : ∀ c ∈ l, goodChar c) :
    sanitizeChars l = l := by
  unfold sanitizeChars
  have e1 : l.filter (fun c => !emojiRange c) = l :=
    List.filter_eq_self.mpr (fun c hc => by rw [Bool.not_eq_true', (h c hc).1])
  rw [e1]
  have e2 : l.filter (fun c => !miscSymbolsRange c) = l :=
    List.filter_eq_self.mpr (fun c hc => by rw [Bool.not_eq_true', (h c hc).2.1])
  rw [e2]
  have e3 : l.filter (fun c => !dingbatsRange c) = l :=
    List.filter_eq_self.mpr (fun c hc => by rw [Bool.not_eq_true', (h c hc).2.2.1])
  rw [e3]
  have e4 : l.filter (fun c => !mahjongRange c) = l :=
    List.filter_eq_self.mpr (fun c hc => by rw [Bool.not_eq_true', (h c hc).2.2.2.1])
  rw [e4]
  have e5 : l.filter (fun c => !cardsRange c) = l :=
    List.filter_eq_self.mpr (fun c hc => by rw [Bool.not_eq_true', (h c hc).2.2.2.2.1])
  rw [e5]
  have e6 : l.filter (fun c => !addSymbolsRange c) = l :=
    List.filter_eq_self.mpr (fun c hc => by rw [Bool.not_eq_true', (h c hc).2.2.2.2.2.1])
  rw [e6]
  have e7 : l.filter (fun c => !moreSymbolsRange c) = l :=
    List.filter_eq_self.mpr (fun c hc => by rw [Bool.not_eq_true', (h c hc).2.2.2.2.2.2.1])
  rw [e7]
  have m1 : l.map (fun c => if genPunctRange c then ' ' else c) = l :=
    map_eq_self_of (fun a ha => by
      rw [if_neg (fun hgp => by
        rw [(h a ha).2.2.2.2.2.2.2] at hgp
        exact Bool.false_ne_true hgp)])
  rw [m1]
  have m2 : l.map (fun c => if lineSepRange c then '\n' else c) = l :=
    map_eq_self_of (fun a ha => by
      rw [if_neg (fun hl => by
        have := lineSep_imp_genPunct hl
        rw [(h a ha).2.2.2.2.2.2.2] at this
        exact Bool.false_ne_true this)])
  rw [m2]

/-- The full list-level sanitization pipeline. -/
def sanitizePipe (l : List Char) : List Char := trimL (collapseWsL (sanitizeChars l))

theorem sanitizePipe_fixed (l : List Char) : sanitizePipe (sanitizePipe l) = sanitizePipe l := by
  unfold sanitizePipe
  have hgood : ∀ c ∈ trimL (collapseWsL (sanitizeChars l)), goodChar c := by
    intro c hc
    rcases mem_collapseWsL (mem_trimL hc) with rfl | ⟨hm, _⟩
    · decide
    · exact mem_sanitizeChars_good hm
  have hws : ∀ c ∈ trimL (collapseWsL (sanitizeChars l)), jsWsChar c = true → c = ' ' :=
    fun c hc hw => wsOnly_collapseWsL (mem_trimL hc) hw
  have hadj : noTwoWs (trimL (collapseWsL (sanitizeChars l))) :=
    noTwoWs_trimL (noTwoWs_collapseWsL _)
  rw [sanitizeChars_eq_self hgood, collapseWsL_eq_self hws hadj]
  have hfront : ∀ c, (trimL (collapseWsL (sanitizeChars l))).head? = some c →
      ¬ jsWsChar c = true := by
    intro c hc
    rcases trimBackL_prefix (trimFrontL (collapseWsL (sanitizeChars l))) with ⟨t, ht⟩
    have : (trimFrontL (collapseWsL (sanitizeChars l))).head? = some c := by
      rw [ht]
      exact head?_append_left hc
    exact head?_dropWhile_not this
  have hback : ∀ c, (trimL (collapseWsL (sanitizeChars l))).getLast? = some c →
      ¬ jsWsChar c = true := by
    intro c hc
    rw [← List.head?_reverse] at hc
    unfold trimL trimBackL at hc
    rw [List.reverse_reverse] at hc
    exact head?_dropWhile_not hc
  show trimL (trimL (collapseWsL (sanitizeChars l))) = trimL (collapseWsL (sanitizeChars l))
  conv_lhs => rw [trimL]
  rw [trimFrontL_eq_self hfront, trimBackL_eq_self hback]

theorem jsWs_of_sep_or_newline {c : Char}
    (h : c.toNat = 0x2028 ∨ c.toNat = 0x2029 ∨ c = '\n') : jsWsChar c = true := by
  simp only [jsWsChar, decide_eq_true_eq]
  rcases h with h | h | h
  · tauto
  · tauto
  · subst h; tauto

/-- C7: `sanitizeText` is idempotent: sanitizing already-sanitized text
changes nothing. -/
theorem claim_C7_sanitizeText_idempotent :
    ∀ x : String, sanitizeText (sanitizeText x) = sanitizeText x := by
  intro x
  exact congrArg String.mk (sanitizePipe_fixed x.data)

/-- C8 counterexample: on the input `"a b"` (a line separator between
two letters), `sanitizeText` produces `"a b"` — the U+2028 character is
converted to an ordinary space, and the output contains no newline, contrary
to the claim that line/paragraph separators are converted to newlines in the
output. -/
theorem claim_C8_counterexample :
    sanitizeText (String.mk ['a', Char.ofNat 0x2028, 'b']) = String.mk ['a', ' ', 'b'] ∧
    '\n' ∉ (sanitizeText (String.mk ['a', Char.ofNat 0x2028, 'b'])).data := by
  constructor
  · decide
  · decide

/-- C8 (amended): `sanitizeText` never emits U+2028, U+2029 or a newline:
the general-punctuation rule (U+2000–U+206F → space) captures the
line/paragraph separators before the newline rule can fire, and the final
whitespace collapse leaves only single ordinary spaces.  The separators are
collapsed to spaces (not deleted): `sanitizeText "a b" = "a b"`. -/
theorem claim_C8_sep_to_space :
    (∀ s : String, ∀ c ∈ (sanitizeText s).data,
      c.toNat ≠ 0x2028 ∧ c.toNat ≠ 0x2029 ∧ c ≠ '\n') ∧
    sanitizeText (String.mk ['a', Char.ofNat 0x2028, 'b']) = String.mk ['a', ' ', 'b'] := by
  constructor
  · intro s c hc
    have hmem : c ∈ collapseWsL (sanitizeChars s.data) := mem_trimL hc
    refine ⟨fun h => ?_, fun h => ?_, fun h => ?_⟩
    · rcases mem_collapseWsL hmem with rfl | ⟨_, hnw⟩
      · simp at h
      · exact hnw (jsWs_of_sep_or_newline (Or.inl h))
    · rcases mem_collapseWsL hmem with rfl | ⟨_, hnw⟩
      · simp at h
      · exact hnw (jsWs_of_sep_or_newline (Or.inr (Or.inl h)))
    · rcases mem_collapseWsL hmem with rfl | ⟨_, hnw⟩
      · simp at h
      · exact hnw (jsWs_of_sep_or_newline (Or.inr (Or.inr h)))
  · decide

/-- Witness for C8 (amended): evaluated at the concrete sanitized string
`"a b"`, whose output character ' ' is none of U+2028/U+2029/newline. -/
theorem claim_C8_sep_to_space_witness :
    (' ').toNat ≠ 0x2028 ∧ (' ').toNat ≠ 0x2029 ∧ (' ') ≠ '\n' :=
  claim_C8_sep_to_space.1 (String.mk ['a', Char.ofNat 0x2028, 'b']) ' ' (by decide)

/-! ## Business-type classification (server/services/websiteCrawler.ts) -/

/-- `WebsiteCrawler.identifyBusinessType`: the literal chain of
`contentLower.includes(...)` checks from the source, in source order.  The
`keywords` parameter is accepted and unused, exactly as in the source. -/
def identifyBusinessType (content : String) (keywords : List String) : String :=
  let contentLower := jsToLowerStr content
  if jsIncludes contentLower "financial" || jsIncludes contentLower "bank" ||
     jsIncludes contentLower "investment" || jsIncludes contentLower "loan" then
    "This appears to be a financial services company."
  else if jsIncludes contentLower "health" || jsIncludes contentLower "medical" ||
     jsIncludes contentLower "clinic" || jsIncludes contentLower "hospital" then
    "This appears to be a healthcare provider."
  else if jsIncludes contentLower "tech" || jsIncludes contentLower "software" ||
     jsIncludes contentLower "digital" || jsIncludes contentLower "app" then
    "This appears to be a technology company."
  else if jsIncludes contentLower "consulting" || jsIncludes contentLower "advisory" ||
     jsIncludes contentLower "strategy" then
    "This appears to be a consulting firm."
  else if jsIncludes contentLower "retail" || jsIncludes contentLower "shop" ||
     jsIncludes contentLower "store" || jsIncludes contentLower "ecommerce" then
    "This appears to be a retail business."
  else
    "This appears to be a business providing various services."

/-- The ordered rule list described by the spec: keyword families with their
sentences, in the designed priority order financial → healthcare →
technology → consulting → retail. -/
def businessTypeRules : List (List String × String) :=
  [ (["financial", "bank", "investment", "loan"],
      "This appears to be a financial services company."),
    (["health", "medical", "clinic", "hospital"],
      "This appears to be a healthcare provider."),
    (["tech", "software", "digital", "app"],
      "This appears to be a technology company."),
    (["consulting", "advisory", "strategy"],
      "This appears to be a consulting firm."),
    (["retail", "shop", "store", "ecommerce"],
      "This appears to be a retail business.") ]

/-- First-match-wins evaluation of an ordered rule list over the lower-cased
content, with the generic fallback sentence when no rule matches. -/
def firstMatchingRuleSentence : List (List String × String) → String → String
  | [], _ => "This appears to be a business providing various services."
  | (kws, sentence) :: rest, contentLower =>
    if kws.any (fun k => jsIncludes contentLower k) then sentence
    else firstMatchingRuleSentence rest contentLower

/-- C9: `identifyBusinessType` is exactly first-match-wins over the ordered
rule list financial → healthcare → technology → consulting → retail with a
generic fallback; in particular content containing both 'bank' and
'software' is classified by the earliest family (financial). -/
theorem claim_C9_business_type_first_match :
    (∀ (content : String) (keywords : List String),
      identifyBusinessType content keywords =
        firstMatchingRuleSentence businessTypeRules (jsToLowerStr content)) ∧
    identifyBusinessType "Our Bank also sells software" [] =
      "This appears to be a financial services company." := by
  constructor
  · intro content keywords
    simp only [identifyBusinessType, businessTypeRules, firstMatchingRuleSentence,
      List.any_cons, List.any_nil, Bool.or_false, Bool.or_assoc]
  · decide

/-! ## OTP store (server/storage.ts, class MemStorage) -/

/-- The value stored in `otpByEmail`. -/
structure OtpRecord where
  code : String
  expiresAt : Nat
deriving DecidableEq, Repr

/-- The `otpByEmail : Map<string, {code, expiresAt}>`, as an association list
keyed by lower-cased email (JS `Map` has unique keys). -/
def OtpMap := List (String × OtpRecord)
deriving DecidableEq

/-- JS `map.get(k)`. -/
def lookupA (k : String) (m : OtpMap) : Option OtpRecord :=
  (m.find? (fun e => e.1 == k)).map (·.2)

/-- JS `map.delete(k)`. -/
def eraseA (k : String) (m : OtpMap) : OtpMap :=
  m.filter (fun e => !(e.1 == k))

/-- JS `map.set(k, v)` (unique keys). -/
def setEntry (k : String) (v : OtpRecord) (m : OtpMap) : OtpMap :=
  (k, v) :: eraseA k m

/-- `MemStorage.saveOtp`. -/
def saveOtp (m : OtpMap) (email code : String) (expiresAt : Nat) : OtpMap :=
  setEntry (jsToLowerStr email) ⟨code, expiresAt⟩ m

/-- `MemStorage.verifyOtp`, with `Date.now()` passed as `now`.  Returns the
boolean result together with the updated map. -/
def verifyOtp (m : OtpMap) (email code : String) (now : Nat) : Bool × OtpMap :=
  match lookupA (jsToLowerStr email) m with
  | none => (false, m)
  | some record =>
    if now > record.expiresAt then
      (false, eraseA (jsToLowerStr email) m)
    else
      if record.code == code then (true, eraseA (jsToLowerStr email) m)
      else (false, m)

/-- `MemStorage.hasActiveOtp`, with `Date.now()` passed as `now`. -/
def hasActiveOtp (m : OtpMap) (email : String) (now : Nat) : Bool :=
  match lookupA (jsToLowerStr email) m with
  | none => false
  | some record => now ≤ record.expiresAt

theorem lookupA_eraseA (k : String) (m : OtpMap) : lookupA k (eraseA k m) = none := by
  unfold lookupA eraseA
  cases h : List.find? (fun e => e.1 == k) (List.filter (fun e => !(e.1 == k)) m) with
  | none => rfl
  | some e =>
    have hp := List.find?_some h
    have hm := List.mem_of_find?_eq_some h
    rw [List.mem_filter, hp] at hm
    simp at hm

theorem lookupA_setEntry (k : String) (v : OtpRecord) (m : OtpMap) :
    lookupA k (setEntry k v m) = some v := by
  unfold lookupA setEntry
  rw [@List.find?_cons_of_pos (String × OtpRecord) (fun e => e.1 == k) (k, v)
    (eraseA k m) (beq_self_eq_true k)]
  rfl

theorem verifyOtp_none {m : OtpMap} {email code : String} {now : Nat}
    (h : lookupA (jsToLowerStr email) m = none) :
    verifyOtp m email code now = (false, m) := by
  simp [verifyOtp, h]

theorem verifyOtp_expired {m : OtpMap} {email code : String} {now : Nat} {r : OtpRecord}
    (h : lookupA (jsToLowerStr email) m = some r) (hexp : now > r.expiresAt) :
    verifyOtp m email code now = (false, eraseA (jsToLowerStr email) m) := by
  simp [verifyOtp, h, hexp]

theorem verifyOtp_valid {m : OtpMap} {email code : String} {now : Nat} {r : OtpRecord}
    (h : lookupA (jsToLowerStr email) m = some r) (hexp : ¬ now > r.expiresAt)
    (hv : (r.code == code) = true) :
    verifyOtp m email code now = (true, eraseA (jsToLowerStr email) m) := by
  simp [verifyOtp, h, hexp, hv]

theorem verifyOtp_mismatch {m : OtpMap} {email code : String} {now : Nat} {r : OtpRecord}
    (h : lookupA (jsToLowerStr email) m = some r) (hexp : ¬ now > r.expiresAt)
    (hv : (r.code == code) = false) :
    verifyOtp m email code now = (false, m) := by
  simp [verifyOtp, h, hexp, hv]

/-- C4: an OTP is single-use: if `verifyOtp` returns true, a second
`verifyOtp` for the same email and code on the resulting store returns
false (at any later time, with no new issuance in between). -/
theorem claim_C4_otp_single_use :
    ∀ (m : OtpMap) (email code : String) (t₁ t₂ : Nat),
      (verifyOtp m email code t₁).1 = true →
      (verifyOtp (verifyOtp m email code t₁).2 email code t₂).1 = false := by
  intro m email code t₁ t₂ h
  cases hl : lookupA (jsToLowerStr email) m with
  | none => rw [verifyOtp_none hl] at h; simp at h
  | some r =>
    by_cases hexp : t₁ > r.expiresAt
    · rw [verifyOtp_expired hl hexp] at h; simp at h
    · cases hv : r.code == code with
      | false => rw [verifyOtp_mismatch hl hexp hv] at h; simp at h
      | true =>
        rw [verifyOtp_valid hl hexp hv]
        rw [verifyOtp_none (lookupA_eraseA (jsToLowerStr email) m)]

/-- Witness for C4 at a concrete store, email, code and times. -/
theorem claim_C4_otp_single_use_witness :
    (verifyOtp (verifyOtp [("a@b.co", ⟨"123456", 10⟩)] "a@b.co" "123456" 3).2
      "a@b.co" "123456" 4).1 = false :=
  claim_C4_otp_single_use [("a@b.co", ⟨"123456", 10⟩)] "a@b.co" "123456" 3 4 (by decide)

/-- C5: expired OTPs fail closed: with a stored record and a call strictly
after its `expiresAt`, `verifyOtp` returns false (for any supplied code,
matching or not), deletes the stale record, and the record is gone from the
resulting store. -/
theorem claim_C5_otp_expired_fails_closed :
    ∀ (m : OtpMap) (email code : String) (t : Nat) (r : OtpRecord),
      lookupA (jsToLowerStr email) m = some r →
      t > r.expiresAt →
      verifyOtp m email code t = (false, eraseA (jsToLowerStr email) m) ∧
      lookupA (jsToLowerStr email) (verifyOtp m email code t).2 = none := by
  intro m email code t r hl hexp
  rw [verifyOtp_expired hl hexp]
  exact ⟨rfl, lookupA_eraseA _ _⟩

/-- Witness for C5 at a concrete store with a matching but expired code. -/
theorem claim_C5_otp_expired_fails_closed_witness :
    verifyOtp [("a@b.co", ⟨"123456", 5⟩)] "a@b.co" "123456" 6 =
      (false, eraseA "a@b.co" [("a@b.co", ⟨"123456", 5⟩)]) ∧
    lookupA "a@b.co" (verifyOtp [("a@b.co", ⟨"123456", 5⟩)] "a@b.co" "123456" 6).2 = none := by
  have h := claim_C5_otp_expired_fails_closed [("a@b.co", ⟨"123456", 5⟩)]
    "a@b.co" "123456" 6 ⟨"123456", 5⟩ (by decide) (by decide)
  exact h

/-! ## `POST /api/auth/request-otp` (server/routes.ts) -/

/-- The deny-list of free/public email providers from `server/routes.ts`. -/
def FREE_EMAIL_DOMAINS : List String :=
  ["gmail.com", "yahoo.com", "yahoo.co.in", "outlook.com", "hotmail.com",
   "live.com", "msn.com", "icloud.com", "me.com", "mac.com", "aol.com",
   "proton.me", "protonmail.com", "gmx.com", "mail.com", "zoho.com",
   "yandex.com", "hey.com", "duck.com"]

/-- `isCompanyEmail` from `server/routes.ts`. -/
def isCompanyEmail (email : String) : Bool :=
  match splitOnCh '@' email.data with
  | [_, d] =>
    let domain := String.mk (d.map jsToLowerChar)
    jsIncludes domain "." && !(FREE_EMAIL_DOMAINS.contains domain)
  | _ => false

/-- The three response shapes of the `request-otp` route. -/
inductive RequestOtpOutcome where
  | invalidEmail : RequestOtpOutcome
  | rateLimited : RequestOtpOutcome
  | sent : RequestOtpOutcome
deriving DecidableEq, Repr

/-- The HTTP status each outcome is sent with. -/
def httpStatusOf : RequestOtpOutcome → Nat
  | .invalidEmail => 400
  | .rateLimited => 429
  | .sent => 200

/-- The `POST /api/auth/request-otp` handler after body parsing:
company-email check, rate-limit check via `hasActiveOtp`, then generation and
`saveOtp` with expiry `now + 5 minutes`.  The generated code is passed as
the `code` parameter (the source draws it from `randomInt`). -/
def requestOtpHandler (m : OtpMap) (email : String) (now : Nat) (code : String) :
    RequestOtpOutcome × OtpMap :=
  if !(isCompanyEmail email) then (.invalidEmail, m)
  else if hasActiveOtp m email now then (.rateLimited, m)
  else (.sent, saveOtp m email code (now + 5 * 60 * 1000))

theorem requestOtpHandler_invalid {m : OtpMap} {email : String} {now : Nat} {code : String}
    (hc : isCompanyEmail email = false) :
    requestOtpHandler m email now code = (.invalidEmail, m) := by
  simp [requestOtpHandler, hc]

theorem requestOtpHandler_limited {m : OtpMap} {email : String} {now : Nat} {code : String}
    (hc : isCompanyEmail email = true) (ha : hasActiveOtp m email now = true) :
    requestOtpHandler m email now code = (.rateLimited, m) := by
  simp [requestOtpHandler, hc, ha]

theorem requestOtpHandler_sent {m : OtpMap} {email : String} {now : Nat} {code : String}
    (hc : isCompanyEmail email = true) (ha : hasActiveOtp m email now = false) :
    requestOtpHandler m email now code =
      (.sent, saveOtp m email code (now + 5 * 60 * 1000)) := by
  simp [requestOtpHandler, hc, ha]

/-- C6: OTP issuance is rate-limited: after a successful `request-otp` at
time `t₁`, a second `request-otp` at any time `t₂` not later than the stored
expiry `t₁ + 5min` answers `rateLimited` (HTTP 429) and leaves the store —
hence the previously saved code and expiry — unchanged. -/
theorem claim_C6_request_otp_rate_limited :
    ∀ (m : OtpMap) (email : String) (t₁ t₂ : Nat) (code₁ code₂ : String),
      (requestOtpHandler m email t₁ code₁).1 = .sent →
      t₂ ≤ t₁ + 5 * 60 * 1000 →
      requestOtpHandler (requestOtpHandler m email t₁ code₁).2 email t₂ code₂ =
        (.rateLimited, (requestOtpHandler m email t₁ code₁).2) ∧
      httpStatusOf .rateLimited = 429 := by
  intro m email t₁ t₂ code₁ code₂ h ht
  by_cases hc : isCompanyEmail email = true
  · cases ha : hasActiveOtp m email t₁ with
    | true => rw [requestOtpHandler_limited hc ha] at h; simp at h
    | false =>
      rw [requestOtpHandler_sent hc ha]
      have hstate : hasActiveOtp (saveOtp m email code₁ (t₁ + 5 * 60 * 1000)) email t₂
          = true := by
        unfold hasActiveOtp saveOtp
        rw [lookupA_setEntry]
        exact decide_eq_true ht
      rw [requestOtpHandler_limited hc hstate]
      exact ⟨rfl, rfl⟩
  · rw [requestOtpHandler_invalid (Bool.not_eq_true _ ▸ hc)] at h
    simp at h

/-- Witness for C6: a concrete first issuance followed by an immediate
second request. -/
theorem claim_C6_request_otp_rate_limited_witness :
    requestOtpHandler (requestOtpHandler [] "a@b.co" 0 "111111").2 "a@b.co" 60000 "222222" =
      (.rateLimited, (requestOtpHandler [] "a@b.co" 0 "111111").2) ∧
    httpStatusOf .rateLimited = 429 :=
  claim_C6_request_otp_rate_limited [] "a@b.co" 0 60000 "111111" "222222"
    (by decide) (by decide)

/-! ## Domain → display-name derivation
(`server/services/ainagerMysql.ts` and `WebsiteCrawler.deriveTitleFromDomain`) -/

/-- JS `words.join(' ')`. -/
def joinSp : List (List Char) → List Char
  | [] => []
  | [w] => w
  | w :: ws => w ++ ' ' :: joinSp ws

/-- JS `w.charAt(0).toUpperCase() + w.slice(1)` on a word. -/
def tcWordJs : List Char → List Char
  | [] => []
  | c :: rest => jsToUpperChar c :: rest

/-- JS `w.charAt(0).toUpperCase() + w.slice(1).toLowerCase()` on a word. -/
def tclWordJs : List Char → List Char
  | [] => []
  | c :: rest => jsToUpperChar c :: rest.map jsToLowerChar

/-- `extractDomainFromEmail` from `ainagerMysql.ts`: the part after a single
`@`, lower-cased; `""` when the split does not yield exactly two parts. -/
def extractDomainFromEmail (email : String) : String :=
  match splitOnCh '@' email.data with
  | [_, d] => String.mk (d.map jsToLowerChar)
  | _ => ""

/-- The body of `buildAinagerNameFromEmail` after the domain has been
extracted and found non-empty (`ainagerMysql.ts`, lines 22–34): take
`domain.split('.')[0] || domain`, replace hyphen/underscore runs by spaces,
title-case each `' '`-separated token (lower-casing the tail of the token),
re-join with spaces, trim; fall back to the domain when empty. -/
def buildNameFromDomain (domain : String) : String :=
  let domainParts := splitOnCh '.' domain.data
  let h := domainParts.headD []
  let mainDomain := if h = [] then domain.data else h
  let companyName :=
    trimL (joinSp ((splitOnCh ' ' (collapseSepsL mainDomain)).map tclWordJs))
  if companyName = [] then domain else String.mk companyName

/-- `buildAinagerNameFromEmail` from `ainagerMysql.ts`. -/
def buildAinagerNameFromEmail (email : String) : String :=
  let domain := extractDomainFromEmail email
  if domain = "" then "ainager" else buildNameFromDomain domain

/-- JS `domain.replace(/^www\./i, '')`. -/
def stripLeadingWww (xs : List Char) : List Char :=
  match xs with
  | a :: b :: c :: d :: rest =>
    if jsToLowerChar a = 'w' ∧ jsToLowerChar b = 'w' ∧ jsToLowerChar c = 'w' ∧ d = '.'
    then rest
    else a :: b :: c :: d :: rest
  | l => l

/-- `WebsiteCrawler.deriveTitleFromDomain`: strip a leading `www.`
(case-insensitively), take `split('.')[0] || withoutWww || domain`, replace
hyphen/underscore runs by spaces and trim, then title-case the non-empty
`' '`-separated tokens and re-join; fall back to the raw domain when the
result is empty. -/
def deriveTitleFromDomain (domain : String) : String :=
  let withoutWww := stripLeadingWww domain.data
  let h := (splitOnCh '.' withoutWww).headD []
  let base := if h = [] then (if withoutWww = [] then domain.data else withoutWww) else h
  let withSpaces := trimL (collapseSepsL base)
  let titleCased :=
    joinSp (((splitOnCh ' ' withSpaces).filter (· ≠ [])).map tcWordJs)
  if titleCased = [] then domain else String.mk titleCased

/-! ## Tenant repository (server/services/ainagerMysql.ts) -/

/-- The input record of `createAinagerAndDocumentMySql`. -/
structure CreateAinagerInput where
  email : String
  companyName : String
  instruction : String
  knowledgeBase : String
  websiteDomain : String
  websiteDescription : Option String
  pdfFilePath : String
deriving DecidableEq, Repr

/-- A row of `chat_ainager` (the columns the code writes). -/
structure AinagerRow where
  ainagerId : Nat
  ainagerName : String
  ainagerDescription : Option String
  ainagerType : String
  ainagerInstruction : String
  pdfFile : String
  corpmail : String
  isActive : Bool
deriving DecidableEq, Repr

/-- A row of `chat_document` (the columns the code writes). -/
structure DocumentRow where
  documentId : Nat
  ainagerId : Nat
  file : String
  documentType : String
  title : String
  description : String
  llmDescription : String
  platform : String
deriving DecidableEq, Repr

/-- The MySQL database state: the two tables plus their auto-increment
counters. -/
structure Db where
  ainagers : List AinagerRow
  documents : List DocumentRow
  nextAinagerId : Nat
  nextDocumentId : Nat
deriving DecidableEq, Repr

/-- The `UPDATE chat_ainager SET ainager_instruction = ?, pdf_file = ?
WHERE ainager_id = ?` statement. -/
def updateAinagerRow (db : Db) (aid : Nat) (input : CreateAinagerInput) : Db :=
  { db with ainagers := db.ainagers.map (fun r =>
      if r.ainagerId = aid then
        { r with ainagerInstruction := input.instruction, pdfFile := input.pdfFilePath }
      else r) }

/-- The `INSERT INTO chat_ainager ...` statement. -/
def insertAinagerRow (db : Db) (name : String) (input : CreateAinagerInput) : Db :=
  { db with
    ainagers := db.ainagers ++
      [{ ainagerId := db.nextAinagerId, ainagerName := name,
         ainagerDescription := input.websiteDescription, ainagerType := "company",
         ainagerInstruction := input.instruction, pdfFile := input.pdfFilePath,
         corpmail := input.email, isActive := true }],
    nextAinagerId := db.nextAinagerId + 1 }

/-- The document title: `input.companyName ? `Knowledge base for ...`
: `Knowledge base ...``  (empty string is falsy in JS). -/
def documentTitleFor (input : CreateAinagerInput) : String :=
  if input.companyName = "" then "Knowledge base " ++ input.websiteDomain
  else "Knowledge base for " ++ input.companyName

/-- The `INSERT INTO chat_document ...` statement. -/
def insertDocumentRow (db : Db) (aid : Nat) (input : CreateAinagerInput) : Db :=
  { db with
    documents := db.documents ++
      [{ documentId := db.nextDocumentId, ainagerId := aid,
         file := input.pdfFilePath, documentType := "PDF",
         title := documentTitleFor input,
         description :=
           input.websiteDescription.getD
             "Comprehensive document generated from website analysis.",
         llmDescription := input.knowledgeBase, platform := "WEB" }],
    nextDocumentId := db.nextDocumentId + 1 }

/-- The value returned by `createAinagerAndDocumentMySql`. -/
structure CreateResult where
  ainagerId : Nat
  documentId : Nat
  ainagerName : String
deriving DecidableEq, Repr

/-- `createAinagerAndDocumentMySql`, success path (no statement fails):
look up an existing tenant by derived name; update it in place or insert a
new one; then insert the document row referencing the resolved tenant id. -/
def createAinagerAndDocumentMySql (db : Db) (input : CreateAinagerInput) :
    CreateResult × Db :=
  let ainagerName := buildAinagerNameFromEmail input.email
  match db.ainagers.find? (fun r => r.ainagerName == ainagerName) with
  | some row =>
    let db₁ := updateAinagerRow db row.ainagerId input
    (⟨row.ainagerId, db₁.nextDocumentId, ainagerName⟩,
      insertDocumentRow db₁ row.ainagerId input)
  | none =>
    let db₁ := insertAinagerRow db ainagerName input
    (⟨db.nextAinagerId, db₁.nextDocumentId, ainagerName⟩,
      insertDocumentRow db₁ db.nextAinagerId input)

/-- `createAinagerAndDocumentMySql` with its transaction and error handling:
`failAt = some k` makes the `k`-th statement of the `try` block throw
(1 = SELECT, 2 = UPDATE/INSERT tenant, 3 = INSERT document, 4 = COMMIT).
Writes become visible only at COMMIT; the `catch` block rolls back (restoring
the initial database) and re-throws; the `finally` block releases the pooled
connection on every exit path — the third component reports that release. -/
def createAinagerTx (db : Db) (input : CreateAinagerInput) (failAt : Option Nat) :
    Except Nat CreateResult × Db × Bool :=
  let body : Except Nat (CreateResult × Db) :=
    if failAt = some 1 then .error 1
    else
      let ainagerName := buildAinagerNameFromEmail input.email
      let found := db.ainagers.find? (fun r => r.ainagerName == ainagerName)
      if failAt = some 2 then .error 2
      else
        let step2 : Nat × Db :=
          match found with
          | some row => (row.ainagerId, updateAinagerRow db row.ainagerId input)
          | none => (db.nextAinagerId, insertAinagerRow db ainagerName input)
        if failAt = some 3 then .error 3
        else
          let db₂ := insertDocumentRow step2.2 step2.1 input
          if failAt = some 4 then .error 4
          else .ok (⟨step2.1, step2.2.nextDocumentId, ainagerName⟩, db₂)
  match body with
  | .ok (r, db') => (.ok r, db', true)
  | .error k => (.error k, db, true)

theorem createAinager_found {db : Db} {input : CreateAinagerInput} {row : AinagerRow}
    (hf : db.ainagers.find?
      (fun r => r.ainagerName == buildAinagerNameFromEmail input.email) = some row) :
    createAinagerAndDocumentMySql db input =
      (⟨row.ainagerId, db.nextDocumentId, buildAinagerNameFromEmail input.email⟩,
        insertDocumentRow (updateAinagerRow db row.ainagerId input) row.ainagerId input) := by
  simp [createAinagerAndDocumentMySql, hf, updateAinagerRow]

theorem createAinager_new {db : Db} {input : CreateAinagerInput}
    (hf : db.ainagers.find?
      (fun r => r.ainagerName == buildAinagerNameFromEmail input.email) = none) :
    createAinagerAndDocumentMySql db input =
      (⟨db.nextAinagerId, db.nextDocumentId, buildAinagerNameFromEmail input.email⟩,
        insertDocumentRow (insertAinagerRow db (buildAinagerNameFromEmail input.email) input)
          db.nextAinagerId input) := by
  simp [createAinagerAndDocumentMySql, hf, insertAinagerRow]

theorem filter_name_map_update (l : List AinagerRow) (aid : Nat)
    (input : CreateAinagerInput) (n : String) :
    ((l.map (fun r => if r.ainagerId = aid then
        { r with ainagerInstruction := input.instruction, pdfFile := input.pdfFilePath }
      else r)).filter (fun r => r.ainagerName == n)).length
    = (l.filter (fun r => r.ainagerName == n)).length := by
  rw [List.filter_map, List.length_map]
  congr 1
  refine List.filter_congr (fun r _ => ?_)
  by_cases h : r.ainagerId = aid <;> simp [h]

/-- C1: the tenant upsert is idempotent on the derived name.  (a) When a row
with the derived name already exists, `createAinagerAndDocumentMySql` updates
only that row's instruction and pdf path and appends one document row
referencing the existing id.  (b) Starting from a database with no tenant of
the derived name, two runs for the same domain leave exactly one tenant row
with that name and append exactly two distinct document rows, both
referencing the single tenant's id. -/
theorem claim_C1_tenant_upsert_idempotent :
    (∀ (db : Db) (input : CreateAinagerInput) (row : AinagerRow),
      db.ainagers.find?
        (fun r => r.ainagerName == buildAinagerNameFromEmail input.email) = some row →
      (createAinagerAndDocumentMySql db input).1.ainagerId = row.ainagerId ∧
      (createAinagerAndDocumentMySql db input).2.ainagers =
        db.ainagers.map (fun r => if r.ainagerId = row.ainagerId then
          { r with ainagerInstruction := input.instruction, pdfFile := input.pdfFilePath }
        else r) ∧
      (createAinagerAndDocumentMySql db input).2.documents = db.documents ++
        [{ documentId := db.nextDocumentId, ainagerId := row.ainagerId,
           file := input.pdfFilePath, documentType := "PDF",
           title := documentTitleFor input,
           description := input.websiteDescription.getD
             "Comprehensive document generated from website analysis.",
           llmDescription := input.knowledgeBase, platform := "WEB" }]) ∧
    (∀ (db : Db) (i₁ i₂ : CreateAinagerInput),
      (∀ r ∈ db.ainagers, r.ainagerName ≠ buildAinagerNameFromEmail i₁.email) →
      buildAinagerNameFromEmail i₂.email = buildAinagerNameFromEmail i₁.email →
      ∃ d₁ d₂ : DocumentRow,
        (createAinagerAndDocumentMySql (createAinagerAndDocumentMySql db i₁).2 i₂).2.documents
          = db.documents ++ [d₁, d₂] ∧
        d₁.ainagerId = (createAinagerAndDocumentMySql db i₁).1.ainagerId ∧
        d₂.ainagerId = (createAinagerAndDocumentMySql db i₁).1.ainagerId ∧
        d₁.documentId ≠ d₂.documentId ∧
        ((createAinagerAndDocumentMySql (createAinagerAndDocumentMySql db i₁).2 i₂).2.ainagers.filter
            (fun r => r.ainagerName == buildAinagerNameFromEmail i₁.email)).length = 1 ∧
        (createAinagerAndDocumentMySql (createAinagerAndDocumentMySql db i₁).2 i₂).1.ainagerId
          = (createAinagerAndDocumentMySql db i₁).1.ainagerId) := by
  constructor
  · intro db input row hf
    rw [createAinager_found hf]
    exact ⟨rfl, rfl, rfl⟩
  · intro db i₁ i₂ hfresh hsame
    have hf1 : db.ainagers.find?
        (fun r => r.ainagerName == buildAinagerNameFromEmail i₁.email) = none :=
      List.find?_eq_none.mpr (fun x hx hbx => hfresh x hx (eq_of_beq hbx))
    rw [createAinager_new hf1]
    have hf2 :
        ((insertDocumentRow (insertAinagerRow db (buildAinagerNameFromEmail i₁.email) i₁)
            db.nextAinagerId i₁).ainagers.find?
          (fun r => r.ainagerName == buildAinagerNameFromEmail i₂.email)) =
        some { ainagerId := db.nextAinagerId,
               ainagerName := buildAinagerNameFromEmail i₁.email,
               ainagerDescription := i₁.websiteDescription, ainagerType := "company",
               ainagerInstruction := i₁.instruction, pdfFile := i₁.pdfFilePath,
               corpmail := i₁.email, isActive := true } := by
      show (db.ainagers ++
        [({ ainagerId := db.nextAinagerId,
            ainagerName := buildAinagerNameFromEmail i₁.email,
            ainagerDescription := i₁.websiteDescription, ainagerType := "company",
            ainagerInstruction := i₁.instruction, pdfFile := i₁.pdfFilePath,
            corpmail := i₁.email, isActive := true } : AinagerRow)]).find?
          (fun r => r.ainagerName == buildAinagerNameFromEmail i₂.email) =
        some { ainagerId := db.nextAinagerId,
               ainagerName := buildAinagerNameFromEmail i₁.email,
               ainagerDescription := i₁.websiteDescription, ainagerType := "company",
               ainagerInstruction := i₁.instruction, pdfFile := i₁.pdfFilePath,
               corpmail := i₁.email, isActive := true }
      rw [hsame, List.find?_append, hf1]
      simp
    rw [createAinager_found hf2]
    refine ⟨{ documentId := db.nextDocumentId, ainagerId := db.nextAinagerId,
              file := i₁.pdfFilePath, documentType := "PDF",
              title := documentTitleFor i₁,
              description := i₁.websiteDescription.getD
                "Comprehensive document generated from website analysis.",
              llmDescription := i₁.knowledgeBase, platform := "WEB" },
            { documentId := db.nextDocumentId + 1, ainagerId := db.nextAinagerId,
              file := i₂.pdfFilePath, documentType := "PDF",
              title := documentTitleFor i₂,
              description := i₂.websiteDescription.getD
                "Comprehensive document generated from website analysis.",
              llmDescription := i₂.knowledgeBase, platform := "WEB" },
            ?_, rfl, rfl, ?_, ?_, rfl⟩
    · simp [insertDocumentRow, updateAinagerRow, insertAinagerRow, List.append_assoc]
    · show db.nextDocumentId ≠ db.nextDocumentId + 1
      omega
    · simp only [insertDocumentRow, updateAinagerRow, insertAinagerRow]
      rw [filter_name_map_update, List.filter_append,
        List.filter_eq_nil_iff.mpr (fun x hx hbx => hfresh x hx (eq_of_beq hbx)),
        List.nil_append]
      simp

/-- A sample pre-existing tenant row (name `"Acme"` = derived name of
`acme.com`). -/
def sampleRow : AinagerRow :=
  { ainagerId := 7, ainagerName := "Acme", ainagerDescription := none,
    ainagerType := "company", ainagerInstruction := "old", pdfFile := "old.pdf",
    corpmail := "w@acme.com", isActive := true }

/-- A sample database that already holds the `"Acme"` tenant. -/
def sampleDbWithAcme : Db :=
  { ainagers := [sampleRow], documents := [], nextAinagerId := 8, nextDocumentId := 3 }

/-- An empty database. -/
def emptyDb : Db :=
  { ainagers := [], documents := [], nextAinagerId := 1, nextDocumentId := 1 }

/-- A sample provisioning input for the domain `acme.com`. -/
def sampleInput1 : CreateAinagerInput :=
  { email := "u@acme.com", companyName := "Acme Inc", instruction := "i1",
    knowledgeBase := "kb1", websiteDomain := "acme.com",
    websiteDescription := some "d1", pdfFilePath := "p1.pdf" }

/-- A second sample provisioning input for the same domain `acme.com`. -/
def sampleInput2 : CreateAinagerInput :=
  { email := "v@acme.com", companyName := "Acme Inc", instruction := "i2",
    knowledgeBase := "kb2", websiteDomain := "acme.com",
    websiteDescription := none, pdfFilePath := "p2.pdf" }

/-- Witness for C1: part (a) applied to a database already holding the
`"Acme"` row, part (b) applied to the empty database and two inputs with the
same domain. -/
theorem claim_C1_tenant_upsert_idempotent_witness :
    ((createAinagerAndDocumentMySql sampleDbWithAcme sampleInput1).1.ainagerId =
        sampleRow.ainagerId ∧
      (createAinagerAndDocumentMySql sampleDbWithAcme sampleInput1).2.ainagers =
        sampleDbWithAcme.ainagers.map (fun r => if r.ainagerId = sampleRow.ainagerId then
          { r with ainagerInstruction := sampleInput1.instruction,
                   pdfFile := sampleInput1.pdfFilePath }
        else r) ∧
      (createAinagerAndDocumentMySql sampleDbWithAcme sampleInput1).2.documents =
        sampleDbWithAcme.documents ++
        [{ documentId := sampleDbWithAcme.nextDocumentId, ainagerId := sampleRow.ainagerId,
           file := sampleInput1.pdfFilePath, documentType := "PDF",
           title := documentTitleFor sampleInput1,
           description := sampleInput1.websiteDescription.getD
             "Comprehensive document generated from website analysis.",
           llmDescription := sampleInput1.knowledgeBase, platform := "WEB" }]) ∧
    (∃ d₁ d₂ : DocumentRow,
      (createAinagerAndDocumentMySql
          (createAinagerAndDocumentMySql emptyDb sampleInput1).2 sampleInput2).2.documents
        = emptyDb.documents ++ [d₁, d₂] ∧
      d₁.ainagerId = (createAinagerAndDocumentMySql emptyDb sampleInput1).1.ainagerId ∧
      d₂.ainagerId = (createAinagerAndDocumentMySql emptyDb sampleInput1).1.ainagerId ∧
      d₁.documentId ≠ d₂.documentId ∧
      ((createAinagerAndDocumentMySql
          (createAinagerAndDocumentMySql emptyDb sampleInput1).2 sampleInput2).2.ainagers.filter
        (fun r => r.ainagerName == buildAinagerNameFromEmail sampleInput1.email)).length = 1 ∧
      (createAinagerAndDocumentMySql
          (createAinagerAndDocumentMySql emptyDb sampleInput1).2 sampleInput2).1.ainagerId
        = (createAinagerAndDocumentMySql emptyDb sampleInput1).1.ainagerId) :=
  ⟨claim_C1_tenant_upsert_idempotent.1 sampleDbWithAcme sampleInput1 sampleRow (by decide),
   claim_C1_tenant_upsert_idempotent.2 emptyDb sampleInput1 sampleInput2
     (fun r hr => absurd hr (List.not_mem_nil r)) (by decide)⟩

/-- C2: the tenant/document write is atomic and the connection is always
released: if any statement of the transaction (SELECT, tenant UPDATE/INSERT,
document INSERT, or COMMIT) fails, the transaction rolls back — the database
is exactly the initial one — and the error is propagated; on success the
committed database is the one the success-path function computes.  The third
component (connection released) is `true` on every exit path. -/
theorem claim_C2_transaction_atomic :
    (∀ (db : Db) (input : CreateAinagerInput) (k : Nat), 1 ≤ k → k ≤ 4 →
      createAinagerTx db input (some k) = (.error k, db, true)) ∧
    (∀ (db : Db) (input : CreateAinagerInput),
      createAinagerTx db input none =
        (.ok (createAinagerAndDocumentMySql db input).1,
          (createAinagerAndDocumentMySql db input).2, true)) := by
  constructor
  · intro db input k h1 h4
    interval_cases k <;> simp [createAinagerTx]
  · intro db input
    cases hf : db.ainagers.find?
        (fun r => r.ainagerName == buildAinagerNameFromEmail input.email) with
    | none => simp [createAinagerTx, createAinagerAndDocumentMySql, hf]
    | some row => simp [createAinagerTx, createAinagerAndDocumentMySql, hf]

/-- Witness for C2: a concrete failure at the document INSERT leaves the
database untouched, and a concrete success commits; the connection is
released in both runs. -/
theorem claim_C2_transaction_atomic_witness :
    createAinagerTx emptyDb sampleInput1 (some 3) = (.error 3, emptyDb, true) ∧
    createAinagerTx emptyDb sampleInput1 none =
      (.ok (createAinagerAndDocumentMySql emptyDb sampleInput1).1,
        (createAinagerAndDocumentMySql emptyDb sampleInput1).2, true) :=
  ⟨claim_C2_transaction_atomic.1 emptyDb sampleInput1 3 (by decide) (by decide),
   claim_C2_transaction_atomic.2 emptyDb sampleInput1⟩

/-! ## Website-analysis store and `POST /api/ainager/create` (routes.ts) -/

/-- `WebsiteAnalysis` from `server/services/websiteCrawler.ts`. -/
structure WebsiteAnalysis where
  domain : String
  title : String
  description : String
  content : String
  instruction : String
  knowledgeBase : String
deriving DecidableEq, Repr

/-- `websiteAnalysisByEmail : Map<string, WebsiteAnalysis>`, keyed by
lower-cased email. -/
def AnalysisMap := List (String × WebsiteAnalysis)
deriving DecidableEq

/-- JS `map.get(k)` on the analysis map. -/
def lookupAnalysis (k : String) (m : AnalysisMap) : Option WebsiteAnalysis :=
  (m.find? (fun e => e.1 == k)).map (·.2)

/-- The whole in-memory application state: `MemStorage`'s two maps plus the
MySQL database. -/
structure AppState where
  otps : OtpMap
  analyses : AnalysisMap
  db : Db

/-- `MemStorage.getWebsiteAnalysis`: a pure read of the analysis map. -/
def getWebsiteAnalysis (s : AppState) (email : String) : Option WebsiteAnalysis :=
  lookupAnalysis (jsToLowerStr email) s.analyses

/-- The two response shapes of the `POST /api/ainager/create` route. -/
inductive CreateAinagerResponse where
  | analysisNotFound : CreateAinagerResponse
  | ok (ainagerName shareableLink : String) (ainagerId documentId : Nat) :
      CreateAinagerResponse
deriving DecidableEq, Repr

/-- The `CreateAinagerInput` the create route builds from a stored analysis
(`routes.ts`, lines 163–171). -/
def analysisInput (wa : WebsiteAnalysis) (email pdfFilePath : String) :
    CreateAinagerInput :=
  { email := email, companyName := wa.title, instruction := wa.instruction,
    knowledgeBase := wa.knowledgeBase, websiteDomain := wa.domain,
    websiteDescription := some wa.description, pdfFilePath := pdfFilePath }

/-- The `POST /api/ainager/create` handler after body parsing: read the
stored analysis (400 when absent), generate the PDF (its output path is the
`pdfFilePath` parameter), persist tenant + document, and answer with the
name, shareable link and ids.  The analysis map is never written. -/
def createAinagerRoute (s : AppState) (email : String) (pdfFilePath : String) :
    CreateAinagerResponse × AppState :=
  match getWebsiteAnalysis s email with
  | none => (.analysisNotFound, s)
  | some wa =>
    let result := createAinagerAndDocumentMySql s.db (analysisInput wa email pdfFilePath)
    (.ok result.1.ainagerName ("https://www.ainager.com/w/" ++ result.1.ainagerName)
       result.1.ainagerId result.1.documentId,
     { s with db := result.2 })

theorem createAinagerRoute_found {s : AppState} {email : String} {wa : WebsiteAnalysis}
    (h : getWebsiteAnalysis s email = some wa) (pdfFilePath : String) :
    createAinagerRoute s email pdfFilePath =
      (.ok (createAinagerAndDocumentMySql s.db
            (analysisInput wa email pdfFilePath)).1.ainagerName
        ("https://www.ainager.com/w/" ++ (createAinagerAndDocumentMySql s.db
            (analysisInput wa email pdfFilePath)).1.ainagerName)
        (createAinagerAndDocumentMySql s.db
          (analysisInput wa email pdfFilePath)).1.ainagerId
        (createAinagerAndDocumentMySql s.db
          (analysisInput wa email pdfFilePath)).1.documentId,
       { s with db := (createAinagerAndDocumentMySql s.db
          (analysisInput wa email pdfFilePath)).2 }) := by
  simp [createAinagerRoute, h]

theorem createAinager_documents_length (db : Db) (input : CreateAinagerInput) :
    (createAinagerAndDocumentMySql db input).2.documents.length =
      db.documents.length + 1 := by
  cases hf : db.ainagers.find?
      (fun r => r.ainagerName == buildAinagerNameFromEmail input.email) with
  | none =>
    rw [createAinager_new hf]
    simp [insertDocumentRow, insertAinagerRow]
  | some row =>
    rw [createAinager_found hf]
    simp [insertDocumentRow, updateAinagerRow]

/-- C10: the create phase does not consume the stored website analysis:
after one stored analysis, the create route succeeds, leaves the analysis map
unchanged (the same analysis is found again), a second create also succeeds,
and each successful run appends exactly one more document row. -/
theorem claim_C10_create_does_not_consume_analysis :
    ∀ (s : AppState) (email p₁ p₂ : String) (wa : WebsiteAnalysis),
      getWebsiteAnalysis s email = some wa →
      (createAinagerRoute s email p₁).1 ≠ .analysisNotFound ∧
      (createAinagerRoute s email p₁).2.analyses = s.analyses ∧
      getWebsiteAnalysis (createAinagerRoute s email p₁).2 email = some wa ∧
      (createAinagerRoute (createAinagerRoute s email p₁).2 email p₂).1 ≠
        .analysisNotFound ∧
      (createAinagerRoute (createAinagerRoute s email p₁).2 email p₂).2.analyses =
        s.analyses ∧
      (createAinagerRoute s email p₁).2.db.documents.length =
        s.db.documents.length + 1 ∧
      (createAinagerRoute (createAinagerRoute s email p₁).2 email p₂).2.db.documents.length
        = s.db.documents.length + 2 := by
  intro s email p₁ p₂ wa h
  rw [createAinagerRoute_found h p₁]
  have h' : getWebsiteAnalysis
      { s with db := (createAinagerAndDocumentMySql s.db
        (analysisInput wa email p₁)).2 } email = some wa := h
  rw [createAinagerRoute_found h' p₂]
  refine ⟨by simp, rfl, h, by simp, rfl, ?_, ?_⟩
  · show (createAinagerAndDocumentMySql s.db
      (analysisInput wa email p₁)).2.documents.length = s.db.documents.length + 1
    rw [createAinager_documents_length]
  · show (createAinagerAndDocumentMySql
        (createAinagerAndDocumentMySql s.db (analysisInput wa email p₁)).2
        (analysisInput wa email p₂)).2.documents.length = s.db.documents.length + 2
    rw [createAinager_documents_length, createAinager_documents_length]

/-- A sample stored website analysis for `acme.com`. -/
def sampleAnalysis : WebsiteAnalysis :=
  { domain := "acme.com", title := "Acme Inc", description := "d",
    content := "c", instruction := "inst", knowledgeBase := "kb" }

/-- A sample application state holding one stored analysis and an empty
database. -/
def sampleState : AppState :=
  { otps := [], analyses := [("u@acme.com", sampleAnalysis)], db := emptyDb }

/-- Witness for C10 at a concrete state with a stored analysis. -/
theorem claim_C10_create_does_not_consume_analysis_witness :
    (createAinagerRoute sampleState "u@acme.com" "p1.pdf").1 ≠ .analysisNotFound ∧
    (createAinagerRoute sampleState "u@acme.com" "p1.pdf").2.analyses =
      sampleState.analyses ∧
    getWebsiteAnalysis (createAinagerRoute sampleState "u@acme.com" "p1.pdf").2
      "u@acme.com" = some sampleAnalysis ∧
    (createAinagerRoute (createAinagerRoute sampleState "u@acme.com" "p1.pdf").2
      "u@acme.com" "p2.pdf").1 ≠ .analysisNotFound ∧
    (createAinagerRoute (createAinagerRoute sampleState "u@acme.com" "p1.pdf").2
      "u@acme.com" "p2.pdf").2.analyses = sampleState.analyses ∧
    (createAinagerRoute sampleState "u@acme.com" "p1.pdf").2.db.documents.length =
      sampleState.db.documents.length + 1 ∧
    (createAinagerRoute (createAinagerRoute sampleState "u@acme.com" "p1.pdf").2
      "u@acme.com" "p2.pdf").2.db.documents.length =
      sampleState.db.documents.length + 2 :=
  claim_C10_create_does_not_consume_analysis sampleState "u@acme.com" "p1.pdf" "p2.pdf"
    sampleAnalysis (by decide)

/-! ## Character-level facts for the name-derivation proofs -/

theorem toNat_ofNat_valid {n : Nat} (h : n < 0xD800) : (Char.ofNat n).toNat = n := by
  unfold Char.ofNat
  rw [dif_pos (Or.inl h)]
  rfl

theorem char_toNat_lt (c : Char) : c.toNat < 1114112 := by
  rcases c.valid with h | ⟨_, h⟩
  · exact Nat.lt_trans h (by decide)
  · exact h

theorem toNat_jsToUpperChar (c : Char) :
    (jsToUpperChar c).toNat =
      if 97 ≤ c.toNat ∧ c.toNat ≤ 122 then c.toNat - 32 else c.toNat := by
  unfold jsToUpperChar
  by_cases h : 97 ≤ c.toNat ∧ c.toNat ≤ 122
  · rw [if_pos h, if_pos h, toNat_ofNat_valid (by omega)]
  · rw [if_neg h, if_neg h]

theorem char_eq_of_toNat_eq {a b : Char} (h : a.toNat = b.toNat) : a = b := by
  have ha := Char.ofNat_toNat a
  rw [h, Char.ofNat_toNat] at ha
  exact ha.symm

theorem jsWsChar_iff_toNat (c : Char) :
    jsWsChar c = true ↔
      (c.toNat = 9 ∨ c.toNat = 10 ∨ c.toNat = 11 ∨ c.toNat = 12 ∨ c.toNat = 13 ∨
       c.toNat = 32 ∨ c.toNat = 0xA0 ∨ c.toNat = 0x1680 ∨
       (0x2000 ≤ c.toNat ∧ c.toNat ≤ 0x200A) ∨
       c.toNat = 0x2028 ∨ c.toNat = 0x2029 ∨ c.toNat = 0x202F ∨
       c.toNat = 0x205F ∨ c.toNat = 0x3000 ∨ c.toNat = 0xFEFF) := by
  simp [jsWsChar]

theorem jsWsChar_jsToUpperChar (c : Char) : jsWsChar (jsToUpperChar c) = jsWsChar c := by
  by_cases h : 97 ≤ c.toNat ∧ c.toNat ≤ 122
  · have h1 : (jsToUpperChar c).toNat = c.toNat - 32 := by
      rw [toNat_jsToUpperChar, if_pos h]
    have hA : ¬ jsWsChar (jsToUpperChar c) = true := by
      rw [jsWsChar_iff_toNat, h1]; omega
    have hB : ¬ jsWsChar c = true := by
      rw [jsWsChar_iff_toNat]; omega
    rw [Bool.not_eq_true] at hA hB
    rw [hA, hB]
  · unfold jsToUpperChar
    rw [if_neg h]

theorem jsToUpperChar_ne_space {c : Char} (hne : ¬ c = ' ') : ¬ jsToUpperChar c = ' ' := by
  intro heq
  have ht := congrArg Char.toNat heq
  rw [toNat_jsToUpperChar] at ht
  by_cases h : 97 ≤ c.toNat ∧ c.toNat ≤ 122
  · rw [if_pos h] at ht
    have : (' ').toNat = 32 := rfl
    omega
  · rw [if_neg h] at ht
    exact hne (char_eq_of_toNat_eq ht)

/-! ## `splitOnCh`, `joinSp` and word-level lemmas -/

theorem splitOnCh_ne_nil (sep : Char) (l : List Char) : splitOnCh sep l ≠ [] := by
  cases l with
  | nil => simp [splitOnCh]
  | cons c rest =>
    unfold splitOnCh
    by_cases h : c = sep
    · rw [if_pos h]; simp
    · rw [if_neg h]
      cases hr : splitOnCh sep rest with
      | nil => exact absurd hr (splitOnCh_ne_nil sep rest)
      | cons p ps => simp [List.modifyHead]

theorem mem_splitOnCh {sep c : Char} {w : List Char} {l : List Char}
    (hw : w ∈ splitOnCh sep l) (hc : c ∈ w) : c ∈ l ∧ ¬ c = sep := by
  induction l generalizing w with
  | nil =>
    simp [splitOnCh] at hw
    subst hw
    simp at hc
  | cons a rest ih =>
    unfold splitOnCh at hw
    by_cases h : a = sep
    · rw [if_pos h] at hw
      rcases List.mem_cons.1 hw with rfl | hw'
      · simp at hc
      · have := ih hw' hc
        exact ⟨List.mem_cons_of_mem _ this.1, this.2⟩
    · rw [if_neg h] at hw
      cases hr : splitOnCh sep rest with
      | nil => exact absurd hr (splitOnCh_ne_nil sep rest)
      | cons p ps =>
        rw [hr] at hw
        simp only [List.modifyHead] at hw
        rcases List.mem_cons.1 hw with rfl | hw'
        · rcases List.mem_cons.1 hc with rfl | hc'
          · exact ⟨List.mem_cons_self _ _, h⟩
          · have := ih (by rw [hr]; exact List.mem_cons_self p ps) hc'
            exact ⟨List.mem_cons_of_mem _ this.1, this.2⟩
        · have := ih (by rw [hr]; exact List.mem_cons_of_mem p hw') hc
          exact ⟨List.mem_cons_of_mem _ this.1, this.2⟩

theorem splitOnCh_cons_sep {sep : Char} (l : List Char) :
    splitOnCh sep (sep :: l) = [] :: splitOnCh sep l := by
  conv_lhs => unfold splitOnCh
  rw [if_pos rfl]

theorem splitOnCh_cons_ne {sep c : Char} (l : List Char) (h : ¬ c = sep) :
    splitOnCh sep (c :: l) = (splitOnCh sep l).modifyHead (c :: ·) := by
  conv_lhs => unfold splitOnCh
  rw [if_neg h]

theorem joinSp_cons_cons {c : Char} {p : List Char} {L : List (List Char)} :
    joinSp ((c :: p) :: L) = c :: joinSp (p :: L) := by
  cases L with
  | nil => rfl
  | cons q qs => rfl

/-- The two-state per-character formulation of
"split on spaces, title-case every word, re-join with spaces". -/
def capWords (atStart : Bool) : List Char → List Char
  | [] => []
  | c :: t =>
    if c = ' ' then ' ' :: capWords true t
    else (if atStart then jsToUpperChar c else c) :: capWords false t

theorem capWords_cons_space (b : Bool) (t : List Char) :
    capWords b (' ' :: t) = ' ' :: capWords true t := by
  conv_lhs => unfold capWords
  rw [if_pos rfl]

theorem capWords_cons_ne_true {c : Char} (t : List Char) (h : ¬ c = ' ') :
    capWords true (c :: t) = jsToUpperChar c :: capWords false t := by
  conv_lhs => unfold capWords
  rw [if_neg h, if_pos rfl]

theorem capWords_cons_ne_false {c : Char} (t : List Char) (h : ¬ c = ' ') :
    capWords false (c :: t) = c :: capWords false t := by
  conv_lhs => unfold capWords
  rw [if_neg h, if_neg Bool.false_ne_true]

theorem capWords_spec (s : List Char) :
    joinSp ((splitOnCh ' ' s).map tcWordJs) = capWords true s ∧
    joinSp ((splitOnCh ' ' s).headD [] :: ((splitOnCh ' ' s).tail).map tcWordJs) =
      capWords false s := by
  induction s with
  | nil => exact ⟨rfl, rfl⟩
  | cons c t ih =>
    cases hr : splitOnCh ' ' t with
    | nil => exact absurd hr (splitOnCh_ne_nil ' ' t)
    | cons p ps =>
      rw [hr] at ih
      simp only [List.headD_cons, List.tail_cons] at ih
      by_cases h : c = ' '
      · subst h
        rw [splitOnCh_cons_sep, hr]
        constructor
        · have e : joinSp (([] :: p :: ps).map tcWordJs) =
              ' ' :: joinSp ((p :: ps).map tcWordJs) := rfl
          rw [e, ih.1, capWords_cons_space]
        · have e : joinSp (([] :: p :: ps).headD [] :: (([] :: p :: ps).tail).map tcWordJs) =
              ' ' :: joinSp ((p :: ps).map tcWordJs) := rfl
          rw [e, ih.1, capWords_cons_space]
      · rw [splitOnCh_cons_ne _ h, hr]
        simp only [List.modifyHead]
        constructor
        · have e : joinSp (((c :: p) :: ps).map tcWordJs) =
              jsToUpperChar c :: joinSp (p :: ps.map tcWordJs) := by
            rw [List.map_cons, show tcWordJs (c :: p) = jsToUpperChar c :: p from rfl,
              joinSp_cons_cons]
          rw [e, show joinSp (p :: ps.map tcWordJs) = joinSp (p :: ps.map tcWordJs) from rfl]
          rw [ih.2, capWords_cons_ne_true _ h]
        · have e : joinSp (((c :: p) :: ps).headD [] :: (((c :: p) :: ps).tail).map tcWordJs) =
              c :: joinSp (p :: ps.map tcWordJs) := by
            rw [List.headD_cons, List.tail_cons, joinSp_cons_cons]
          rw [e, ih.2, capWords_cons_ne_false _ h]

theorem tcWordJs_eq_nil_iff (w : List Char) : tcWordJs w = [] ↔ w = [] := by
  cases w <;> simp [tcWordJs]

theorem splitOnCh_capWords (s : List Char) :
    splitOnCh ' ' (capWords true s) = (splitOnCh ' ' s).map tcWordJs ∧
    splitOnCh ' ' (capWords false s) =
      (splitOnCh ' ' s).headD [] :: ((splitOnCh ' ' s).tail).map tcWordJs := by
  induction s with
  | nil => exact ⟨rfl, rfl⟩
  | cons c t ih =>
    cases hr : splitOnCh ' ' t with
    | nil => exact absurd hr (splitOnCh_ne_nil ' ' t)
    | cons p ps =>
      rw [hr] at ih
      simp only [List.headD_cons, List.tail_cons] at ih
      by_cases h : c = ' '
      · subst h
        constructor
        · rw [capWords_cons_space, splitOnCh_cons_sep, ih.1, splitOnCh_cons_sep, hr]
          rfl
        · rw [capWords_cons_space, splitOnCh_cons_sep, ih.1, splitOnCh_cons_sep, hr]
          rfl
      · constructor
        · rw [capWords_cons_ne_true _ h,
            splitOnCh_cons_ne _ (jsToUpperChar_ne_space h), ih.2,
            splitOnCh_cons_ne _ h, hr]
          rfl
        · rw [capWords_cons_ne_false _ h, splitOnCh_cons_ne _ h, ih.2,
            splitOnCh_cons_ne _ h, hr]
          rfl

/-- The non-empty `' '`-separated words of a string. -/
def wordsOf (s : List Char) : List (List Char) :=
  (splitOnCh ' ' s).filter (· ≠ [])

theorem wordsOf_capWords_true (s : List Char) :
    wordsOf (capWords true s) = (wordsOf s).map tcWordJs := by
  unfold wordsOf
  rw [(splitOnCh_capWords s).1, List.filter_map]
  congr 1
  refine List.filter_congr (fun w _ => ?_)
  exact decide_eq_decide.mpr (not_congr (tcWordJs_eq_nil_iff w))

theorem wordsOf_cons_space (t : List Char) : wordsOf (' ' :: t) = wordsOf t := by
  unfold wordsOf
  rw [splitOnCh_cons_sep]
  simp

theorem splitOnCh_append_space (l : List Char) :
    splitOnCh ' ' (l ++ [' ']) = splitOnCh ' ' l ++ [[]] := by
  induction l with
  | nil => rfl
  | cons c t ih =>
    by_cases h : c = ' '
    · subst h
      rw [show (' ' :: t) ++ [' '] = ' ' :: (t ++ [' ']) from rfl, splitOnCh_cons_sep, ih,
        splitOnCh_cons_sep]
      rfl
    · rw [show (c :: t) ++ [' '] = c :: (t ++ [' ']) from rfl, splitOnCh_cons_ne _ h, ih,
        splitOnCh_cons_ne _ h]
      cases hr : splitOnCh ' ' t with
      | nil => exact absurd hr (splitOnCh_ne_nil ' ' t)
      | cons p ps => rfl

theorem wordsOf_append_space (l : List Char) : wordsOf (l ++ [' ']) = wordsOf l := by
  unfold wordsOf
  rw [splitOnCh_append_space, List.filter_append]
  simp

theorem wordsOf_trimFrontL :
    ∀ (s : List Char), (∀ c ∈ s, jsWsChar c = true → c = ' ') →
      wordsOf (trimFrontL s) = wordsOf s := by
  intro s
  induction s with
  | nil => intro _; rfl
  | cons c t ih =>
    intro hP
    unfold trimFrontL
    rw [List.dropWhile_cons]
    by_cases hw : jsWsChar c = true
    · rw [if_pos hw]
      have hc : c = ' ' := hP c (List.mem_cons_self _ _) hw
      subst hc
      rw [show List.dropWhile (fun c => jsWsChar c) t = trimFrontL t from rfl,
        ih (fun x hx => hP x (List.mem_cons_of_mem _ hx)), wordsOf_cons_space]
    · rw [if_neg hw]

theorem wordsOf_trimBackL :
    ∀ (s : List Char), (∀ c ∈ s, jsWsChar c = true → c = ' ') →
      wordsOf (trimBackL s) = wordsOf s := by
  intro s
  induction s using List.reverseRecOn with
  | nil => intro _; rfl
  | append_singleton l a ih =>
    intro hP
    by_cases hw : jsWsChar a = true
    · have ha : a = ' ' := hP a (List.mem_append_right l (List.mem_singleton_self a)) hw
      subst ha
      have e : trimBackL (l ++ [' ']) = trimBackL l := by
        unfold trimBackL
        rw [List.reverse_append,
          show ([' '] : List Char).reverse ++ l.reverse = ' ' :: l.reverse from rfl,
          List.dropWhile_cons, if_pos (by decide)]
      rw [e, ih (fun x hx => hP x (List.mem_append_left _ hx)), wordsOf_append_space]
    · have e : trimBackL (l ++ [a]) = l ++ [a] := by
        unfold trimBackL
        rw [List.reverse_append,
          show ([a] : List Char).reverse ++ l.reverse = a :: l.reverse from rfl,
          List.dropWhile_cons, if_neg hw, List.reverse_cons, List.reverse_reverse]
      rw [e]

theorem wordsOf_trimL (s : List Char) (hP : ∀ c ∈ s, jsWsChar c = true → c = ' ') :
    wordsOf (trimL s) = wordsOf s := by
  unfold trimL
  rw [wordsOf_trimBackL (trimFrontL s)
    (fun x hx => hP x ((List.dropWhile_sublist _).mem hx)), wordsOf_trimFrontL s hP]

theorem trimBackL_cons_not_ws {c : Char} {t : List Char} (hc : ¬ jsWsChar c = true) :
    trimBackL (c :: t) = c :: trimBackL t := by
  unfold trimBackL
  rw [List.reverse_cons, List.dropWhile_append]
  by_cases h : (List.dropWhile (fun c => jsWsChar c) t.reverse).isEmpty = true
  · rw [if_pos h, List.dropWhile_cons, if_neg hc]
    rw [List.isEmpty_iff] at h
    rw [h]
    rfl
  · rw [if_neg h, List.reverse_append]
    rfl

theorem trimBackL_cons_of_ne {x : Char} {t : List Char} (h : trimBackL t ≠ []) :
    trimBackL (x :: t) = x :: trimBackL t := by
  unfold trimBackL at h ⊢
  rw [List.reverse_cons, List.dropWhile_append]
  have h' : ¬ (List.dropWhile (fun c => jsWsChar c) t.reverse).isEmpty = true := by
    intro hcontra
    rw [List.isEmpty_iff] at hcontra
    rw [hcontra] at h
    exact h rfl
  rw [if_neg h', List.reverse_append]
  rfl

theorem splitOnCh_cons_head {e : Char} (t : List Char) (he : ¬ e = ' ') :
    ∃ q qs, splitOnCh ' ' (e :: t) = (e :: q) :: qs := by
  rw [splitOnCh_cons_ne _ he]
  cases hr : splitOnCh ' ' t with
  | nil => exact absurd hr (splitOnCh_ne_nil ' ' t)
  | cons p ps => exact ⟨p, ps, rfl⟩

theorem joinSp_wordsOf_single {c : Char} (hc : ¬ c = ' ') :
    joinSp (wordsOf [c]) = [c] := by
  unfold wordsOf
  rw [splitOnCh_cons_ne _ hc]
  rfl

theorem joinSp_wordsOf_word_end {c : Char} (hc : ¬ c = ' ') :
    joinSp (wordsOf [c, ' ']) = [c] := by
  unfold wordsOf
  rw [splitOnCh_cons_ne _ hc]
  rfl

theorem joinSp_wordsOf_word_cont {c d : Char} {t : List Char}
    (hc : ¬ c = ' ') (hd : ¬ d = ' ') :
    joinSp (wordsOf (c :: d :: t)) = c :: joinSp (wordsOf (d :: t)) := by
  obtain ⟨q, qs, hq⟩ := splitOnCh_cons_head t hd
  unfold wordsOf
  rw [splitOnCh_cons_ne _ hc, hq]
  rw [show List.modifyHead (c :: ·) ((d :: q) :: qs) = (c :: d :: q) :: qs from rfl]
  rw [List.filter_cons, List.filter_cons]
  rw [show (decide ((c :: d :: q) ≠ [])) = true by simp,
    show (decide ((d :: q) ≠ [])) = true by simp]
  simp only [if_pos]
  exact joinSp_cons_cons

theorem joinSp_wordsOf_word_break {c e : Char} {t : List Char}
    (hc : ¬ c = ' ') (he : ¬ e = ' ') :
    joinSp (wordsOf (c :: ' ' :: e :: t)) = c :: ' ' :: joinSp (wordsOf (e :: t)) := by
  obtain ⟨q, qs, hq⟩ := splitOnCh_cons_head t he
  unfold wordsOf
  rw [splitOnCh_cons_ne _ hc, splitOnCh_cons_sep, hq]
  rw [show List.modifyHead (c :: ·) ([] :: (e :: q) :: qs) = [c] :: (e :: q) :: qs from rfl]
  rw [List.filter_cons, List.filter_cons]
  rw [show (decide (([c] : List Char) ≠ [])) = true by simp,
    show (decide ((e :: q) ≠ [])) = true by simp]
  simp only [if_pos]
  rfl

theorem trimBackL_joinSp_aux :
    ∀ (n : Nat) (u : List Char), u.length ≤ n →
      (∀ c ∈ u, jsWsChar c = true → c = ' ') → noTwoWs u →
      (∀ c, u.head? = some c → ¬ jsWsChar c = true) →
      trimBackL u = joinSp (wordsOf u) := by
  intro n
  induction n with
  | zero =>
    intro u hlen _ _ _
    have : u = [] := List.eq_nil_of_length_eq_zero (Nat.le_zero.1 hlen)
    subst this
    rfl
  | succ n ih =>
    intro u hlen hP hadj hh
    cases u with
    | nil => rfl
    | cons c t =>
      have hc : ¬ jsWsChar c = true := hh c rfl
      have hcsp : ¬ c = ' ' := fun he => hc (he ▸ (by decide : jsWsChar ' ' = true))
      cases t with
      | nil =>
        rw [trimBackL_cons_not_ws hc, joinSp_wordsOf_single hcsp]
        rfl
      | cons d t' =>
        by_cases hwd : jsWsChar d = true
        · have hdsp : d = ' ' :=
            hP d (List.mem_cons_of_mem _ (List.mem_cons_self _ _)) hwd
          subst hdsp
          cases t' with
          | nil =>
            rw [trimBackL_cons_not_ws hc, joinSp_wordsOf_word_end hcsp]
            rfl
          | cons e t'' =>
            have hwe : ¬ jsWsChar e = true := fun hwe => hadj.2.1 ⟨by decide, hwe⟩
            have hesp : ¬ e = ' ' := fun he => hwe (he ▸ (by decide : jsWsChar ' ' = true))
            have h1 : trimBackL (e :: t'') ≠ [] := by
              rw [trimBackL_cons_not_ws hwe]
              simp
            have hrec : trimBackL (e :: t'') = joinSp (wordsOf (e :: t'')) := by
              refine ih (e :: t'') ?_ ?_ ?_ ?_
              · simp only [List.length_cons] at hlen ⊢
                omega
              · exact fun x hx hwx =>
                  hP x (List.mem_cons_of_mem _ (List.mem_cons_of_mem _ hx)) hwx
              · exact noTwoWs_tail (noTwoWs_tail hadj)
              · intro x hx
                rw [List.head?_cons, Option.some_inj] at hx
                subst hx
                exact hwe
            rw [trimBackL_cons_not_ws hc, trimBackL_cons_of_ne h1, hrec,
              joinSp_wordsOf_word_break hcsp hesp]
        · have hdsp : ¬ d = ' ' := fun he => hwd (he ▸ (by decide : jsWsChar ' ' = true))
          have hrec : trimBackL (d :: t') = joinSp (wordsOf (d :: t')) := by
            refine ih (d :: t') ?_ ?_ ?_ ?_
            · simp only [List.length_cons] at hlen ⊢
              omega
            · exact fun x hx hwx => hP x (List.mem_cons_of_mem _ hx) hwx
            · exact noTwoWs_tail hadj
            · intro x hx
              rw [List.head?_cons, Option.some_inj] at hx
              subst hx
              exact hwd
          rw [trimBackL_cons_not_ws hc, hrec, joinSp_wordsOf_word_cont hcsp hdsp]

theorem trimBackL_joinSp (u : List Char)
    (hP : ∀ c ∈ u, jsWsChar c = true → c = ' ') (hadj : noTwoWs u)
    (hh : ∀ c, u.head? = some c → ¬ jsWsChar c = true) :
    trimBackL u = joinSp (wordsOf u) :=
  trimBackL_joinSp_aux u.length u (Nat.le_refl _) hP hadj hh

theorem trimL_joinSp (s : List Char)
    (hP : ∀ c ∈ s, jsWsChar c = true → c = ' ') (hadj : noTwoWs s) :
    trimL s = joinSp (wordsOf s) := by
  cases s with
  | nil => rfl
  | cons c t =>
    by_cases hw : jsWsChar c = true
    · have hc : c = ' ' := hP c (List.mem_cons_self _ _) hw
      subst hc
      have ht : trimFrontL t = t := by
        cases t with
        | nil => rfl
        | cons e t' =>
          refine trimFrontL_eq_self (fun x hx => ?_)
          rw [List.head?_cons, Option.some_inj] at hx
          subst hx
          exact fun hwe => hadj.1 ⟨by decide, hwe⟩
      have e1 : trimL (' ' :: t) = trimBackL t := by
        unfold trimL trimFrontL
        rw [List.dropWhile_cons, if_pos (by decide)]
        rw [show List.dropWhile (fun c => jsWsChar c) t = trimFrontL t from rfl, ht]
      rw [e1, wordsOf_cons_space,
        trimBackL_joinSp t (fun x hx => hP x (List.mem_cons_of_mem _ hx))
          (noTwoWs_tail hadj)
          (fun x hx => by
            cases t with
            | nil => simp at hx
            | cons e t' =>
              rw [List.head?_cons, Option.some_inj] at hx
              subst hx
              exact fun hwe => hadj.1 ⟨by decide, hwe⟩)]
    · have e1 : trimL (c :: t) = trimBackL (c :: t) := by
        unfold trimL
        rw [trimFrontL_eq_self (fun x hx => by
          rw [List.head?_cons, Option.some_inj] at hx
          subst hx
          exact hw)]
      rw [e1, trimBackL_joinSp (c :: t) hP hadj
        (fun x hx => by
          rw [List.head?_cons, Option.some_inj] at hx
          subst hx
          exact hw)]

theorem capWords_cons_shape (b : Bool) (d : Char) (t : List Char) :
    ∃ x b', capWords b (d :: t) = x :: capWords b' t ∧
      jsWsChar x = jsWsChar d ∧ (d = ' ' → x = ' ') := by
  by_cases h : d = ' '
  · subst h
    exact ⟨' ', true, capWords_cons_space b t, rfl, fun _ => rfl⟩
  · cases b with
    | false =>
      exact ⟨d, false, capWords_cons_ne_false _ h, rfl, fun he => absurd he h⟩
    | true =>
      exact ⟨jsToUpperChar d, false, capWords_cons_ne_true _ h,
        jsWsChar_jsToUpperChar d, fun he => absurd he h⟩

theorem capWords_wsOnly :
    ∀ (s : List Char) (b : Bool), (∀ c ∈ s, jsWsChar c = true → c = ' ') →
      ∀ c ∈ capWords b s, jsWsChar c = true → c = ' ' := by
  intro s
  induction s with
  | nil => intro b _ c hc; simp [capWords] at hc
  | cons d t ih =>
    intro b hP c hc hw
    obtain ⟨x, b', e, hx, hsp⟩ := capWords_cons_shape b d t
    rw [e] at hc
    rcases List.mem_cons.1 hc with rfl | hc'
    · exact hsp (hP d (List.mem_cons_self _ _) (hx ▸ hw))
    · exact ih b' (fun y hy => hP y (List.mem_cons_of_mem _ hy)) c hc' hw

theorem capWords_noTwoWs :
    ∀ (s : List Char) (b : Bool), noTwoWs s → noTwoWs (capWords b s) := by
  intro s
  induction s with
  | nil => intro b _; exact noTwoWs_nil
  | cons d t ih =>
    intro b hadj
    obtain ⟨x, b', e, hx, _⟩ := capWords_cons_shape b d t
    rw [e]
    cases t with
    | nil => exact noTwoWs_single x
    | cons d' t' =>
      obtain ⟨y, b'', e', hy, _⟩ := capWords_cons_shape b' d' t'
      rw [e']
      refine ⟨fun hp => hadj.1 ⟨hx ▸ hp.1, hy ▸ hp.2⟩, ?_⟩
      rw [← e']
      exact ih b' (noTwoWs_tail hadj)

theorem collapseSepsL_single_sep {c : Char} (h : c = '-' ∨ c = '_') :
    collapseSepsL [c] = [' '] := by
  unfold collapseSepsL
  rw [if_pos h]

theorem collapseSepsL_single_not {c : Char} (h : ¬ (c = '-' ∨ c = '_')) :
    collapseSepsL [c] = [c] := by
  unfold collapseSepsL
  rw [if_neg h]

theorem collapseSepsL_cons₂_sep_sep {c d : Char} {rest : List Char}
    (hc : c = '-' ∨ c = '_') (hd : d = '-' ∨ d = '_') :
    collapseSepsL (c :: d :: rest) = collapseSepsL (d :: rest) := by
  conv_lhs => unfold collapseSepsL
  rw [if_pos hc, if_pos hd]

theorem collapseSepsL_cons₂_sep_not {c d : Char} {rest : List Char}
    (hc : c = '-' ∨ c = '_') (hd : ¬ (d = '-' ∨ d = '_')) :
    collapseSepsL (c :: d :: rest) = ' ' :: collapseSepsL (d :: rest) := by
  conv_lhs => unfold collapseSepsL
  rw [if_pos hc, if_neg hd]

theorem collapseSepsL_cons₂_not {c d : Char} {rest : List Char}
    (hc : ¬ (c = '-' ∨ c = '_')) :
    collapseSepsL (c :: d :: rest) = c :: collapseSepsL (d :: rest) := by
  conv_lhs => unfold collapseSepsL
  rw [if_neg hc]

theorem collapseSepsL_cons_not (c : Char) (rest : List Char)
    (h : ¬ (c = '-' ∨ c = '_')) :
    collapseSepsL (c :: rest) = c :: collapseSepsL rest := by
  cases rest with
  | nil => rw [collapseSepsL_single_not h]; rfl
  | cons d t => exact collapseSepsL_cons₂_not h

theorem mem_collapseSepsL {c : Char} {l : List Char} (h : c ∈ collapseSepsL l) :
    c = ' ' ∨ (c ∈ l ∧ ¬ (c = '-' ∨ c = '_')) := by
  induction l using collapseSepsL.induct with
  | case1 => simp [collapseSepsL] at h
  | case2 c₀ hs =>
    rw [collapseSepsL_single_sep hs, List.mem_singleton] at h
    exact Or.inl h
  | case3 c₀ hs =>
    rw [collapseSepsL_single_not hs, List.mem_singleton] at h
    subst h
    exact Or.inr ⟨List.mem_singleton_self c, hs⟩
  | case4 c₀ d rest hc hd ih =>
    rw [collapseSepsL_cons₂_sep_sep hc hd] at h
    rcases ih h with h' | ⟨hm, hw⟩
    · exact Or.inl h'
    · exact Or.inr ⟨List.mem_cons_of_mem _ hm, hw⟩
  | case5 c₀ d rest hc hd ih =>
    rw [collapseSepsL_cons₂_sep_not hc hd, List.mem_cons] at h
    rcases h with h' | h'
    · exact Or.inl h'
    · rcases ih h' with h'' | ⟨hm, hw⟩
      · exact Or.inl h''
      · exact Or.inr ⟨List.mem_cons_of_mem _ hm, hw⟩
  | case6 c₀ d rest hc ih =>
    rw [collapseSepsL_cons₂_not hc, List.mem_cons] at h
    rcases h with h' | h'
    · subst h'
      exact Or.inr ⟨List.mem_cons_self _ _, hc⟩
    · rcases ih h' with h'' | ⟨hm, hw⟩
      · exact Or.inl h''
      · exact Or.inr ⟨List.mem_cons_of_mem _ hm, hw⟩

theorem collapseSepsL_wsOnly {l : List Char} (hl : ∀ c ∈ l, ¬ jsWsChar c = true) :
    ∀ c ∈ collapseSepsL l, jsWsChar c = true → c = ' ' := by
  intro c hc hw
  rcases mem_collapseSepsL hc with h | ⟨hm, _⟩
  · exact h
  · exact absurd hw (hl c hm)

theorem collapseSepsL_noTwoWs :
    ∀ (l : List Char), (∀ c ∈ l, ¬ jsWsChar c = true) → noTwoWs (collapseSepsL l) := by
  intro l
  induction l using collapseSepsL.induct with
  | case1 => intro _; exact noTwoWs_nil
  | case2 c hs => intro _; rw [collapseSepsL_single_sep hs]; exact noTwoWs_single _
  | case3 c hs => intro _; rw [collapseSepsL_single_not hs]; exact noTwoWs_single _
  | case4 c d rest hc hd ih =>
    intro hl
    rw [collapseSepsL_cons₂_sep_sep hc hd]
    exact ih (fun x hx => hl x (List.mem_cons_of_mem _ hx))
  | case5 c d rest hc hd ih =>
    intro hl
    rw [collapseSepsL_cons₂_sep_not hc hd, collapseSepsL_cons_not d rest hd]
    have hwd : ¬ jsWsChar d = true :=
      hl d (List.mem_cons_of_mem _ (List.mem_cons_self _ _))
    refine ⟨fun hp => hwd hp.2, ?_⟩
    rw [← collapseSepsL_cons_not d rest hd]
    exact ih (fun x hx => hl x (List.mem_cons_of_mem _ hx))
  | case6 c d rest hc ih =>
    intro hl
    rw [collapseSepsL_cons₂_not hc]
    exact noTwoWs_cons_of (hl c (List.mem_cons_self _ _))
      (ih (fun x hx => hl x (List.mem_cons_of_mem _ hx)))

theorem tclWordJs_eq_tcWordJs {w : List Char} (h : ∀ c ∈ w, jsToLowerChar c = c) :
    tclWordJs w = tcWordJs w := by
  cases w with
  | nil => rfl
  | cons c rest =>
    show jsToUpperChar c :: rest.map jsToLowerChar = jsToUpperChar c :: rest
    rw [map_eq_self_of (fun x hx => h x (List.mem_cons_of_mem _ hx))]

theorem nameCore_eq {b : List Char}
    (hws : ∀ c ∈ b, ¬ jsWsChar c = true)
    (hlow : ∀ c ∈ b, jsToLowerChar c = c) :
    trimL (joinSp ((splitOnCh ' ' (collapseSepsL b)).map tclWordJs)) =
      joinSp (((splitOnCh ' ' (trimL (collapseSepsL b))).filter (· ≠ [])).map tcWordJs) := by
  have hsP : ∀ c ∈ collapseSepsL b, jsWsChar c = true → c = ' ' := collapseSepsL_wsOnly hws
  have hsAdj : noTwoWs (collapseSepsL b) := collapseSepsL_noTwoWs b hws
  have e1 : (splitOnCh ' ' (collapseSepsL b)).map tclWordJs =
      (splitOnCh ' ' (collapseSepsL b)).map tcWordJs := by
    refine List.map_congr_left (fun w hw => ?_)
    refine tclWordJs_eq_tcWordJs (fun c hc => ?_)
    have hmem := mem_splitOnCh hw hc
    rcases mem_collapseSepsL hmem.1 with h' | ⟨hm, _⟩
    · exact absurd h' hmem.2
    · exact hlow c hm
  rw [e1, (capWords_spec (collapseSepsL b)).1,
    trimL_joinSp (capWords true (collapseSepsL b))
      (capWords_wsOnly _ true hsP) (capWords_noTwoWs _ true hsAdj),
    wordsOf_capWords_true,
    show ((splitOnCh ' ' (trimL (collapseSepsL b))).filter (· ≠ [])) =
      wordsOf (trimL (collapseSepsL b)) from rfl,
    wordsOf_trimL _ hsP]

/-- C3 counterexample: the two naming paths are not the same function: for
the domain `www.acme.io` the tenant-naming path
(`buildAinagerNameFromEmail`) yields "Www" (it does not strip the leading
`www.`), while the title-derivation path (`deriveTitleFromDomain`) yields
"Acme"; in particular the tenant name derived from `user@www.acme.io` is not
"Acme". -/
theorem claim_C3_counterexample :
    buildAinagerNameFromEmail "user@www.acme.io" = "Www" ∧
    deriveTitleFromDomain "www.acme.io" = "Acme" ∧
    buildAinagerNameFromEmail "user@www.acme.io" ≠ deriveTitleFromDomain "www.acme.io" := by
  refine ⟨by decide, by decide, by decide⟩

/-- C3 (amended): `deriveTitleFromDomain` strips a leading `www.`, takes the
label before the first dot, splits on hyphen/underscore, title-cases the
tokens, re-joins with spaces and falls back to the raw domain when empty —
so `deriveTitleFromDomain "my-shop.com" = "My Shop"` and
`deriveTitleFromDomain "www.acme.io" = "Acme"`.  The tenant-naming path
(`buildAinagerNameFromEmail`) computes "My Shop" for `user@my-shop.com` but
does NOT strip the leading `www.` (`user@www.acme.io` yields "Www"); the
two paths agree on every domain whose characters are non-whitespace and
lower-case-stable and that does not begin with the (case-insensitive)
prefix `www.`. -/
theorem claim_C3_displayName_derivation :
    deriveTitleFromDomain "my-shop.com" = "My Shop" ∧
    deriveTitleFromDomain "www.acme.io" = "Acme" ∧
    buildAinagerNameFromEmail "user@my-shop.com" = "My Shop" ∧
    buildAinagerNameFromEmail "user@www.acme.io" = "Www" ∧
    (∀ domain : String,
      (∀ c ∈ domain.data, ¬ jsWsChar c = true) →
      (∀ c ∈ domain.data, jsToLowerChar c = c) →
      stripLeadingWww domain.data = domain.data →
      buildNameFromDomain domain = deriveTitleFromDomain domain) := by
  refine ⟨by decide, by decide, by decide, by decide, ?_⟩
  intro domain hws hlow hwww
  have hbase : ∀ c ∈ (if (splitOnCh '.' domain.data).headD [] = []
      then domain.data else (splitOnCh '.' domain.data).headD []),
      (¬ jsWsChar c = true) ∧ jsToLowerChar c = c := by
    intro c hc
    by_cases h : (splitOnCh '.' domain.data).headD [] = []
    · rw [if_pos h] at hc
      exact ⟨hws c hc, hlow c hc⟩
    · rw [if_neg h] at hc
      cases hr : splitOnCh '.' domain.data with
      | nil => exact absurd hr (splitOnCh_ne_nil _ _)
      | cons p ps =>
        rw [hr, List.headD_cons] at hc
        have hp : p ∈ splitOnCh '.' domain.data := by
          rw [hr]
          exact List.mem_cons_self _ _
        have hmem := mem_splitOnCh hp hc
        exact ⟨hws c hmem.1, hlow c hmem.1⟩
  have hcore := nameCore_eq (fun c hc => (hbase c hc).1) (fun c hc => (hbase c hc).2)
  simp only [buildNameFromDomain, deriveTitleFromDomain, hwww, ite_self]
  rw [hcore]

/-- Witness for the general agreement part of C3, at the domain
`my-shop.com`. -/
theorem claim_C3_displayName_derivation_witness :
    buildNameFromDomain "my-shop.com" = deriveTitleFromDomain "my-shop.com" :=
  claim_C3_displayName_derivation.2.2.2.2 "my-shop.com" (by decide) (by decide) (by decide)

end DemoBuilder
